import Mathlib

/-!
Verification of the natural-language specification of the repository's
red-black tree (`src/include/red_black_tree.h`) and union-find
(`src/include/union_find.h`) against a shallow embedding of their code.

The red-black tree is an intrusive pointer structure, so it is embedded as
a heap of nodes addressed by natural numbers; every member function is
transcribed statement by statement, with each C++ member access reading
the heap current at that statement.  Dereferencing a null pointer is
C++ undefined behaviour and is modelled by the result `Res.ub`; the
source's `while` loops are bounded by an explicit fuel, whose exhaustion
is modelled by `Res.oof`.
-/

namespace RBT

/-- Model of `RedBlackTree::Color`. -/
inductive Color where
  | Black : Color
  | Red : Color
deriving DecidableEq

/-- Model of `RedBlackTree::Direction`. -/
inductive Dir where
  | Left : Dir
  | Right : Dir
deriving DecidableEq

/-- Model of `RedBlackTree::opposite`. -/
def Dir.opposite : Dir → Dir
  | .Left => .Right
  | .Right => .Left

/-- One `RedBlackTree` node's fields.  The payload `value` is never read or
written by any tree operation in the source, so it is omitted.  The
defaults are the source's member initializers: black color, null links. -/
structure Node where
  color : Color := .Black
  left : Option Nat := none
  right : Option Nat := none
  parent : Option Nat := none
deriving DecidableEq

/-- The heap: nodes are identified by natural-number addresses. -/
def Heap := Nat → Node

/-- Heap in which every node is in its freshly-constructed state. -/
def emptyHeap : Heap := fun _ => {}

/-- Result of running a fragment of the C++ code: a value, undefined
behaviour (`ub`: a dereference of a null pointer), or exhaustion of the
fuel bounding the model's loops (`oof`). -/
inductive Res (α : Type) where
  | ok : α → Res α
  | ub : Res α
  | oof : Res α
deriving DecidableEq

/-- Overwrite the node stored at address `x`. -/
def writeNode (h : Heap) (x : Nat) (n : Node) : Heap :=
  fun j => if j = x then n else h j

/-- Model of `node->get_child(d)` as a read. -/
def getChild (h : Heap) (x : Nat) (d : Dir) : Option Nat :=
  match d with
  | .Left => (h x).left
  | .Right => (h x).right

/-- Model of the assignment `node->get_child(d) = v`. -/
def setChild (h : Heap) (x : Nat) (d : Dir) (v : Option Nat) : Heap :=
  match d with
  | .Left => writeNode h x { h x with left := v }
  | .Right => writeNode h x { h x with right := v }

/-- Model of the assignment `node->parent = v`. -/
def setParent (h : Heap) (x : Nat) (v : Option Nat) : Heap :=
  writeNode h x { h x with parent := v }

/-- Model of the assignment `node->color = v`. -/
def setColor (h : Heap) (x : Nat) (v : Color) : Heap :=
  writeNode h x { h x with color := v }

/-- Model of `RedBlackTree::is_black`. -/
def is_black (h : Heap) (x : Nat) : Bool :=
  (h x).color = Color.Black

/-- Model of `RedBlackTree::is_red`. -/
def is_red (h : Heap) (x : Nat) : Bool :=
  (h x).color = Color.Red

/-- Model of `RedBlackTree::is_left`: `!parent || parent->left == this`. -/
def is_left (h : Heap) (x : Nat) : Bool :=
  match (h x).parent with
  | none => true
  | some p => (h p).left = some x

/-- Model of `RedBlackTree::is_right`: `!parent || parent->right == this`. -/
def is_right (h : Heap) (x : Nat) : Bool :=
  match (h x).parent with
  | none => true
  | some p => (h p).right = some x

/-- Model of `RedBlackTree::is_root`. -/
def is_root (h : Heap) (x : Nat) : Bool :=
  (h x).parent = none

/-- Model of `RedBlackTree::get_dir`: `is_left() ? Left : Right`. -/
def get_dir (h : Heap) (x : Nat) : Dir :=
  if is_left h x then Dir.Left else Dir.Right

/-- Model of `RedBlackTree::get_root` (fuel bounds the parent walk). -/
def get_root (fuel : Nat) (h : Heap) (x : Nat) : Res Nat :=
  match fuel with
  | 0 => .oof
  | fuel + 1 =>
    match (h x).parent with
    | none => .ok x
    | some p => get_root fuel h p

/-- Model of `RedBlackTree::rotate`.  The compile-time `rotate<dir>` and the
run-time dispatcher that merely selects one of its two instantiations have
this common effect.  Statements are transcribed in source order; every
member access reads the heap current at that statement. -/
def rotate (h0 : Heap) (x : Nat) (d : Dir) : Res Heap :=
  -- RedBlackTree *&opposite_dir_child = get_child<opposite(dir)>();
  -- if (parent) parent->get_child(get_dir()) = opposite_dir_child;
  let h1 := match (h0 x).parent with
    | none => h0
    | some p => setChild h0 p (get_dir h0 x) (getChild h0 x d.opposite)
  -- opposite_dir_child->parent = parent;
  match getChild h1 x d.opposite with
  | none => .ub
  | some od =>
    let h2 := setParent h1 od ((h1 x).parent)
    -- parent = opposite_dir_child;
    let h3 := setParent h2 x (some od)
    -- opposite_dir_child = opposite_dir_child->get_child<dir>();
    let h4 := match getChild h3 x d.opposite with
      | none => h3
      | some od' => setChild h3 x d.opposite (getChild h3 od' d)
    -- if (opposite_dir_child) opposite_dir_child->parent = this;
    let h5 := match getChild h4 x d.opposite with
      | none => h4
      | some m => setParent h4 m (some x)
    -- parent->get_child<dir>() = this;
    match (h5 x).parent with
    | none => .ub
    | some q => .ok (setChild h5 q d (some x))

/-- Model of `RedBlackTree::insert_common`:
`node->parent = this; node->color = Red;`. -/
def insert_common (h : Heap) (self node : Nat) : Heap :=
  setColor (setParent h node (some self)) node Color.Red

/-- Model of one call of `RedBlackTree::insert_fixup_step`.  `ok (h, next)`
returns the updated heap and the node the loop continues at (`none` =
loop finished). -/
def insert_fixup_step (h : Heap) (x : Nat) : Res (Heap × Option Nat) :=
  if is_root h x then
    .ok (setColor h x Color.Black, none)
  else
    match (h x).parent with
    | none => .ub
    | some p =>
      if is_black h p then
        .ok (h, none)
      else
        let parent_dir := get_dir h p
        -- uncle = parent->parent->get_child(opposite(parent_dir))
        match (h p).parent with
        | none => .ub
        | some g =>
          let uncle := getChild h g parent_dir.opposite
          let black_uncle : Res (Heap × Option Nat) :=
            if parent_dir ≠ get_dir h x then
              -- black uncle case with a triangle formed
              match rotate h p (get_dir h x).opposite with
              | .ok h1 => .ok (h1, some p)
              | .ub => .ub
              | .oof => .oof
            else
              -- black uncle case with a line formed
              let h1 := setColor h p Color.Black
              let h2 := setColor h1 g Color.Red
              match rotate h2 g (get_dir h2 x).opposite with
              | .ok h3 => .ok (h3, none)
              | .ub => .ub
              | .oof => .oof
          match uncle with
          | some u =>
            if is_red h u then
              -- red uncle case
              let h1 := setColor h u Color.Black
              let h2 := setColor h1 p Color.Black
              let h3 := setColor h2 g Color.Red
              -- return parent->parent;
              match (h3 x).parent with
              | none => .ub
              | some p' => .ok (h3, (h3 p').parent)
            else black_uncle
          | none => black_uncle

/-- Model of `RedBlackTree::insert_fixup`:
`while ((node = node->insert_fixup_step()));`. -/
def insert_fixup (fuel : Nat) (h : Heap) (x : Nat) : Res Heap :=
  match fuel with
  | 0 => .oof
  | fuel + 1 =>
    match insert_fixup_step h x with
    | .ok (h', none) => .ok h'
    | .ok (h', some y) => insert_fixup fuel h' y
    | .ub => .ub
    | .oof => .oof

/-- Model of `RedBlackTree::insert_left`. -/
def insert_left (fuel : Nat) (h : Heap) (self node : Nat) : Res Heap :=
  let h1 := insert_common h self node
  let h2 := setChild h1 self Dir.Left (some node)
  insert_fixup fuel h2 node

/-- Model of `RedBlackTree::insert_right`. -/
def insert_right (fuel : Nat) (h : Heap) (self node : Nat) : Res Heap :=
  let h1 := insert_common h self node
  let h2 := setChild h1 self Dir.Right (some node)
  insert_fixup fuel h2 node

/-- Model of `RedBlackTree::transplant`:
`replacer->parent = parent; if (!is_root()) parent->get_child(get_dir()) = replacer;`. -/
def transplant (h : Heap) (x r : Nat) : Heap :=
  let h1 := setParent h r ((h x).parent)
  match (h1 x).parent with
  | none => h1
  | some p => setChild h1 p (get_dir h1 x) (some r)

/-- Model of one call of `RedBlackTree::remove_fixup_step`. -/
def remove_fixup_step (h : Heap) (x : Nat) : Res (Heap × Option Nat) :=
  if is_root h x || is_red h x then
    .ok (setColor h x Color.Black, none)
  else
    match (h x).parent with
    | none => .ub
    | some p =>
      let dir := get_dir h x
      let sibling_dir := dir.opposite
      match getChild h p sibling_dir with
      | none => .ub
      | some sibling =>
        if is_red h sibling then
          -- Red sibling case
          let h1 := setColor h sibling Color.Black
          let h2 := setColor h1 p Color.Red
          match rotate h2 p dir with
          | .ok h3 => .ok (h3, some x)
          | .ub => .ub
          | .oof => .oof
        else if ((h sibling).left.all fun l => is_black h l)
             && ((h sibling).right.all fun r => is_black h r) then
          -- Black sibling with both children black case
          let h1 := setColor h sibling Color.Red
          .ok (h1, some p)
        else if (getChild h sibling sibling_dir).all fun c => is_black h c then
          -- black sibling whose same-direction child is black
          match getChild h sibling dir with
          | none => .ub
          | some near =>
            let h1 := setColor h near Color.Black
            let h2 := setColor h1 sibling Color.Red
            match rotate h2 sibling sibling_dir with
            | .ok h3 => .ok (h3, some x)
            | .ub => .ub
            | .oof => .oof
        else
          -- black sibling whose same-direction child is red
          -- sibling->color = parent->color; parent->color = Black;
          let h1 := setColor h sibling ((h p).color)
          let h2 := setColor h1 p Color.Black
          -- sibling->get_child(sibling_dir)->color = Black;
          match getChild h2 sibling sibling_dir with
          | none => .ub
          | some far =>
            let h3 := setColor h2 far Color.Black
            -- parent->rotate(dir);
            match rotate h3 p dir with
            | .ub => .ub
            | .oof => .oof
            | .ok h4 =>
              -- if (parent->parent->is_root()) return parent->parent; else return nullptr;
              match (h4 x).parent with
              | none => .ub
              | some p' =>
                match (h4 p').parent with
                | none => .ub
                | some pp =>
                  if (h4 pp).parent = none then .ok (h4, some pp)
                  else .ok (h4, none)

/-- Model of `RedBlackTree::remove_fixup`:
`while ((node = node->remove_fixup_step()));`. -/
def remove_fixup (fuel : Nat) (h : Heap) (x : Nat) : Res Heap :=
  match fuel with
  | 0 => .oof
  | fuel + 1 =>
    match remove_fixup_step h x with
    | .ok (h', none) => .ok h'
    | .ok (h', some y) => remove_fixup fuel h' y
    | .ub => .ub
    | .oof => .oof

/-- Model of the successor loop in `remove()`:
`while (inorder_next->left) inorder_next = inorder_next->left;`. -/
def find_leftmost (fuel : Nat) (h : Heap) (x : Nat) : Res Nat :=
  match fuel with
  | 0 => .oof
  | fuel + 1 =>
    match (h x).left with
    | none => .ok x
    | some l => find_leftmost fuel h l

/-- Model of the two-children pointer surgery at the top of
`RedBlackTree::remove`: the body of `if (left && right) { ... }`, including
the two statements shared by its branches.  On a node with at most one
child it returns the heap unchanged, like the source. -/
def remove_swap_successor (fuel : Nat) (h : Heap) (z : Nat) : Res Heap :=
  match (h z).left, (h z).right with
  | some _, some r0 =>
    match find_leftmost fuel h r0 with
    | .ub => .ub
    | .oof => .oof
    | .ok s =>
      let branch : Res Heap :=
        if (h z).right = some s then
          -- if (inorder_next == right)
          let h1 := transplant h z s
          -- parent = inorder_next;
          let h2 := setParent h1 z (some s)
          -- right = parent->right;
          match (h2 z).parent with
          | none => .ub
          | some p1 =>
            let h3 := setChild h2 z Dir.Right ((h2 p1).right)
            -- parent->right = this;
            match (h3 z).parent with
            | none => .ub
            | some p2 => .ok (setChild h3 p2 Dir.Right (some z))
        else
          -- std::swap(inorder_next->parent, parent);
          let sp := (h s).parent
          let zp := (h z).parent
          let h1 := setParent (setParent h s zp) z sp
          -- parent->left = this;
          match (h1 z).parent with
          | none => .ub
          | some p1 =>
            let h2 := setChild h1 p1 Dir.Left (some z)
            -- left->parent = inorder_next;
            match (h2 z).left with
            | none => .ub
            | some l1 =>
              let h3 := setParent h2 l1 (some s)
              -- right->parent = inorder_next;
              match (h3 z).right with
              | none => .ub
              | some r1 =>
                let h4 := setParent h3 r1 (some s)
                -- std::swap(inorder_next->right, right);
                let a := (h4 s).right
                let b := (h4 z).right
                let h5 := setChild (setChild h4 s Dir.Right b) z Dir.Right a
                -- if (right) right->parent = this;
                match (h5 z).right with
                | none => .ok h5
                | some rr => .ok (setParent h5 rr (some z))
      match branch with
      | .ub => .ub
      | .oof => .oof
      | .ok hb =>
        -- inorder_next->left = left; left = nullptr;
        let h6 := setChild hb s Dir.Left ((hb z).left)
        let h7 := setChild h6 z Dir.Left none
        -- std::swap(inorder_next->color, color);
        let cs := (h7 s).color
        let cz := (h7 z).color
        .ok (setColor (setColor h7 s cz) z cs)
  | _, _ => .ok h

/-- Model of `RedBlackTree::remove`. -/
def remove (fuel : Nat) (h : Heap) (z : Nat) : Res Heap :=
  match remove_swap_successor fuel h z with
  | .ub => .ub
  | .oof => .oof
  | .ok hp =>
    -- RedBlackTree *replacer_node = nullptr; if (left) ... else if (right) ... else ...
    let spliced : Heap × Nat :=
      match (hp z).left with
      | some l => (setChild (transplant hp z l) z Dir.Left none, l)
      | none =>
        match (hp z).right with
        | some r => (setChild (transplant hp z r) z Dir.Right none, r)
        | none => (hp, z)
    let h1 := spliced.1
    let replacer := spliced.2
    -- if (color == Color::Black) replacer_node->remove_fixup();
    let after_fix : Res Heap :=
      if is_black h1 z then remove_fixup fuel h1 replacer else .ok h1
    match after_fix with
    | .ub => .ub
    | .oof => .oof
    | .ok h2 =>
      -- replacer_node->color = Black; color = Black;
      let h3 := setColor h2 replacer Color.Black
      let h4 := setColor h3 z Color.Black
      -- if (this == replacer_node && !is_root()) parent->get_child(get_dir()) = nullptr;
      let h5 :=
        if z = replacer && !(is_root h4 z) then
          match (h4 z).parent with
          | none => h4
          | some p => setChild h4 p (get_dir h4 z) none
        else h4
      -- parent = nullptr;
      .ok (setParent h5 z none)

/-- Binary trees of node ids and colors: the downward structure of a heap. -/
inductive T where
  | nil : T
  | nd (i : Nat) (c : Color) (l r : T) : T
deriving DecidableEq

/-- Read back the downward tree hanging at a node (`none` input = null
pointer, which reads back as the empty tree); `oof` if deeper than `fuel`. -/
def toTree (fuel : Nat) (h : Heap) : Option Nat → Res T
  | none => .ok T.nil
  | some x =>
    match fuel with
    | 0 => .oof
    | fuel + 1 =>
      match toTree fuel h (h x).left, toTree fuel h (h x).right with
      | .ok l, .ok r => .ok (T.nd x (h x).color l r)
      | _, _ => .oof

/-- Color of a tree's root; null leaves count as black. -/
def T.rootColor : T → Color
  | .nil => Color.Black
  | .nd _ c _ _ => c

/-- No red node has a red child, checked downward. -/
def noRedRed : T → Bool
  | .nil => true
  | .nd _ c l r =>
    (c = Color.Black || (l.rootColor = Color.Black && r.rootColor = Color.Black))
      && noRedRed l && noRedRed r

/-- Black height when all root-to-null-leaf paths agree, else `none`
(counting one for the null leaves, as the repository's own
`_test_rb_tree_properties` checker does). -/
def bh : T → Option Nat
  | .nil => some 1
  | .nd _ c l r =>
    match bh l, bh r with
    | some a, some b =>
      if a = b then some (a + (if c = Color.Black then 1 else 0)) else none
    | _, _ => none

/-- In-order list of node ids. -/
def inord : T → List Nat
  | .nil => []
  | .nd i _ l r => inord l ++ i :: inord r

/-- Every node of the downward tree has its parent pointer aimed at the node
it hangs under (`pa` = expected parent of the tree's root). -/
def parentsOk (h : Heap) (pa : Option Nat) : T → Bool
  | .nil => true
  | .nd i _ l r =>
    ((h i).parent = pa) && parentsOk h (some i) l && parentsOk h (some i) r

/-- A call of one of the three public mutating operations. -/
inductive Op where
  | insL (self node : Nat) : Op
  | insR (self node : Nat) : Op
  | rem (node : Nat) : Op
deriving DecidableEq

/-- Run one operation. -/
def runOp (fuel : Nat) (h : Heap) : Op → Res Heap
  | .insL s n => insert_left fuel h s n
  | .insR s n => insert_right fuel h s n
  | .rem n => remove fuel h n

/-- Run a sequence of operations. -/
def runOps (fuel : Nat) (h : Heap) : List Op → Res Heap
  | [] => .ok h
  | op :: ops =>
    match runOp fuel h op with
    | .ok h' => runOps fuel h' ops
    | .ub => .ub
    | .oof => .oof

/-- Run a sequence of operations from the all-fresh heap, with fuel 64 for
every loop (ample for the small scenarios considered here). -/
def finalHeap (ops : List Op) : Res Heap :=
  runOps 64 emptyHeap ops

/-- Observe one node of the heap inside a result. -/
def peek (r : Res Heap) (i : Nat) : Option Node :=
  match r with
  | .ok h => some (h i)
  | _ => none

/-- Observe the downward tree at the root discovered by `get_root` from
`start`, for the heap inside a result. -/
def viewTree (r : Res Heap) (start : Nat) : Res T :=
  match r with
  | .ok h =>
    match get_root 64 h start with
    | .ok rt => toTree 64 h (some rt)
    | .ub => .ub
    | .oof => .oof
  | .ub => .ub
  | .oof => .oof

end RBT

namespace RBT

/-- Observe the outcome of `remove` (value discarded) on the heap inside a
result, so that success, null-dereference and fuel exhaustion can be
compared decidably. -/
def remOutcome (r : Res Heap) (fuel z : Nat) : Res Unit :=
  match r with
  | .ok h =>
    match remove fuel h z with
    | .ok _ => .ok ()
    | .ub => .ub
    | .oof => .oof
  | .ub => .ub
  | .oof => .oof

/-- Check that the downward tree discovered from `start` has consistent
parent pointers throughout, for the heap inside a result. -/
def viewParentsOk (r : Res Heap) (start : Nat) : Bool :=
  match r with
  | .ok h =>
    match get_root 64 h start with
    | .ok rt =>
      match toTree 64 h (some rt) with
      | .ok t => parentsOk h none t
      | _ => false
    | _ => false
  | _ => false

/-- The insertion sequence of the spec's Scenario C: values 0..4, each
inserted at the slot the scenario prescribes. -/
def scenCOps : List Op := [.insR 0 1, .insR 1 2, .insR 2 3, .insR 3 4]

/-- Scenario D: remove node 3 from the Scenario C tree. -/
def scenDOps : List Op := scenCOps ++ [.rem 3]

/-- The Scenario C expected tree stated in the spec:
root 1 Black, left 0 Black, right 3 Black with children 2 Red and 4 Red. -/
def scenCTree : T :=
  T.nd 1 .Black (T.nd 0 .Black .nil .nil)
    (T.nd 3 .Black (T.nd 2 .Red .nil .nil) (T.nd 4 .Red .nil .nil))

/-- The tree left by Scenario D: 4 occupies 3's former position (root's
right child), with 2 as its red left child. -/
def scenDTree : T :=
  T.nd 1 .Black (T.nd 0 .Black .nil .nil)
    (T.nd 4 .Black (T.nd 2 .Red .nil .nil) .nil)

/-- C7: starting from the Scenario C tree (which the model reproduces
exactly as the spec states it), removing node 3 — whose two children are 2
and 4, the successor 4 being the immediate right child — leaves a tree in
which 4 occupies 3's former position (the root's right slot, with parent
pointer back to the root) and which satisfies the equal-black-height and
no-red-red invariants. -/
theorem C7_scenarioD_successor_replaces_and_invariants_hold :
    viewTree (finalHeap scenCOps) 0 = .ok scenCTree
    ∧ viewTree (finalHeap scenDOps) 0 = .ok scenDTree
    ∧ peek (finalHeap scenDOps) 1 = some ⟨.Black, some 0, some 4, none⟩
    ∧ peek (finalHeap scenDOps) 4 = some ⟨.Black, some 2, none, some 1⟩
    ∧ noRedRed scenDTree = true
    ∧ bh scenDTree = some 3 := by
  refine ⟨?_, ?_, ?_, ?_, ?_, ?_⟩ <;> decide

/-- C1: the two-children case of `remove()` does not detach exactly `z`
with consistent links on either code path.
Path one (successor is the immediate right child): Scenario D leaves
`4.left = 2` while `2.parent` still aims at the removed, detached node 3,
so parent/child links of the remaining nodes are not mutually consistent.
Path two (successor deeper in the right subtree): in the 7-node tree built
by inserting 0..6 ascending, removing node 3 leaves the root's right slot
still aiming at the removed node 3, while the successor 4 — which should
occupy 3's former position — has parent pointer to the root but is nobody's
child; the tree readable downward from the root is then `1(0,3)` and has
lost nodes 2, 4, 5, 6, and still contains the removed node 3. -/
theorem C1_remove_two_children_breaks_links :
    (peek (finalHeap scenDOps) 4 = some ⟨.Black, some 2, none, some 1⟩
      ∧ peek (finalHeap scenDOps) 2 = some ⟨.Red, none, none, some 3⟩
      ∧ peek (finalHeap scenDOps) 3 = some ⟨.Black, none, none, none⟩
      ∧ viewParentsOk (finalHeap scenDOps) 0 = false)
    ∧ (peek (finalHeap ((List.range 6).map (fun i => .insR i (i + 1)) ++ [.rem 3])) 1
          = some ⟨.Black, some 0, some 3, none⟩
      ∧ peek (finalHeap ((List.range 6).map (fun i => .insR i (i + 1)) ++ [.rem 3])) 3
          = some ⟨.Black, none, none, none⟩
      ∧ peek (finalHeap ((List.range 6).map (fun i => .insR i (i + 1)) ++ [.rem 3])) 4
          = some ⟨.Red, some 2, some 5, some 1⟩
      ∧ viewTree (finalHeap ((List.range 6).map (fun i => .insR i (i + 1)) ++ [.rem 3])) 0
          = .ok (T.nd 1 .Black (T.nd 0 .Black .nil .nil) (T.nd 3 .Black .nil .nil))) := by
  refine ⟨⟨?_, ?_, ?_, ?_⟩, ?_, ?_, ?_, ?_⟩ <;> decide

/-- The operation sequence reaching a red-red violation: Scenario C, then
two leaf insertions at empty slots of members 2 and 4, removal of member 3,
and one more insertion at the empty left slot of member 5. -/
def c2Ops : List Op :=
  scenCOps ++ [.insL 2 5, .insR 4 6, .rem 3, .insL 5 7]

/-- C2: a state reachable by valid operations (each insertion targets an
empty child slot of an inserted-and-never-removed node, each removal
targets such a node) in which a Red node has a Red parent: the tree
readable from the root is `1 Black (0 Black, 4 Red (2 Red, 6 Black))`,
where red node 2 hangs under red node 4.  The conjuncts about prefixes of
the sequence witness that each insertion found its target slot empty. -/
theorem C2_reachable_red_red_violation :
    viewTree (finalHeap c2Ops) 0
      = .ok (T.nd 1 .Black (T.nd 0 .Black .nil .nil)
          (T.nd 4 .Red (T.nd 2 .Red .nil .nil) (T.nd 6 .Black .nil .nil)))
    ∧ noRedRed (T.nd 1 .Black (T.nd 0 .Black .nil .nil)
          (T.nd 4 .Red (T.nd 2 .Red .nil .nil) (T.nd 6 .Black .nil .nil))) = false
    ∧ peek (finalHeap (c2Ops.take 4)) 2 = some ⟨.Red, none, none, some 3⟩
    ∧ peek (finalHeap (c2Ops.take 5)) 4 = some ⟨.Black, none, none, some 3⟩
    ∧ peek (finalHeap (c2Ops.take 7)) 5 = some ⟨.Red, none, none, some 2⟩ := by
  refine ⟨?_, ?_, ?_, ?_, ?_⟩ <;> decide

/-- The operation sequence reaching a black-height violation: Scenario C,
then removal of members 3 and 2. -/
def c3Ops : List Op := scenCOps ++ [.rem 3, .rem 2]

/-- C3: a state reachable by valid operations in which the paths from the
root to the null leaves pass through different numbers of black nodes: the
tree readable from the root is `1 Black (0 Black, 4 Black (2 Black, nil))`
(the second removal failed to unlink node 2, because node 2's parent
pointer was left aiming at the already-detached node 3), and `bh` reports
the mismatch.  Its left spine has two black nodes above a null leaf while
the path through 2 has three. -/
theorem C3_reachable_black_height_violation :
    viewTree (finalHeap c3Ops) 0
      = .ok (T.nd 1 .Black (T.nd 0 .Black .nil .nil)
          (T.nd 4 .Black (T.nd 2 .Black .nil .nil) .nil))
    ∧ bh (T.nd 1 .Black (T.nd 0 .Black .nil .nil)
          (T.nd 4 .Black (T.nd 2 .Black .nil .nil) .nil)) = none := by
  refine ⟨?_, ?_⟩ <;> decide

/-- Inserting five nodes at valid empty slots and then removing all five,
in an order on which every call completes. -/
def c4Ops : List Op :=
  [.insR 0 1, .insR 1 2, .insR 0 3, .insR 3 4,
   .rem 3, .rem 0, .rem 1, .rem 4, .rem 2]

/-- C4: a round trip on which every insert and every remove completes
normally, yet afterwards the tree is not empty and the nodes are not all
reset: node 1 still has node 0 as its right child, and node 0 still has
node 1 as its parent. -/
theorem C4_round_trip_leaves_linked_nodes :
    peek (finalHeap c4Ops) 0 = some ⟨.Black, none, none, some 1⟩
    ∧ peek (finalHeap c4Ops) 1 = some ⟨.Black, none, some 0, none⟩ := by
  refine ⟨?_, ?_⟩ <;> decide

/-- The three insertions building the valid red-black tree
`3 Black (1 Black (nil, 2 Red), 4 Black)` from the single node 3. -/
def c5Ops : List Op := [.insL 3 1, .insR 3 4, .insR 1 2]

/-- C5: on a fully valid red-black tree (equal black heights, no red-red,
consistent parent pointers), `remove()` on node 3 — a member with two
children — dereferences a null pointer (`sibling->is_red()` with a null
sibling, reached after the buggy successor swap), so it never returns with
node 3 reset and a replacer forced black.  `Res.ub` is the model's value
for that null dereference; the fuel plays no role in it. -/
theorem C5_remove_on_valid_tree_dereferences_null :
    viewTree (finalHeap c5Ops) 3
      = .ok (T.nd 3 .Black (T.nd 1 .Black .nil (T.nd 2 .Red .nil .nil))
          (T.nd 4 .Black .nil .nil))
    ∧ viewParentsOk (finalHeap c5Ops) 3 = true
    ∧ noRedRed (T.nd 3 .Black (T.nd 1 .Black .nil (T.nd 2 .Red .nil .nil))
          (T.nd 4 .Black .nil .nil)) = true
    ∧ bh (T.nd 3 .Black (T.nd 1 .Black .nil (T.nd 2 .Red .nil .nil))
          (T.nd 4 .Black .nil .nil)) = some 3
    ∧ remOutcome (finalHeap c5Ops) 64 3 = .ub := by
  refine ⟨?_, ?_, ?_, ?_, ?_⟩ <;> decide

end RBT

namespace RBT

/-- The operation sequence (six ascending insertions, one left insertion,
two removals — all completing normally) whose final state makes
`remove()` on node 2 loop forever. -/
def c8Ops : List Op :=
  (List.range 6).map (fun i => .insR i (i + 1)) ++ [.insL 0 7, .rem 5, .rem 3]

/-- First of the two states the remove-fixup loop alternates between,
described by the three nodes its steps read and write. -/
def cycA (h : Heap) : Prop :=
  h 2 = ⟨.Black, none, none, some 4⟩
  ∧ h 4 = ⟨.Black, some 2, some 6, some 6⟩
  ∧ h 6 = ⟨.Red, some 4, none, some 4⟩

/-- Second of the two states the remove-fixup loop alternates between. -/
def cycB (h : Heap) : Prop :=
  h 2 = ⟨.Black, none, none, some 4⟩
  ∧ h 4 = ⟨.Red, some 2, some 6, some 6⟩
  ∧ h 6 = ⟨.Black, some 4, none, some 4⟩

/-- The state in which the looping remove-fixup starts. -/
def cycPre (h : Heap) : Prop :=
  h 2 = ⟨.Black, none, none, some 4⟩
  ∧ h 4 = ⟨.Red, some 2, some 6, some 1⟩
  ∧ h 6 = ⟨.Black, some 4, none, some 4⟩

lemma remove_fixup_cycle : ∀ (fuel : Nat) (h : Heap),
    (cycA h → remove_fixup fuel h 2 = .oof)
    ∧ (cycB h → remove_fixup fuel h 2 = .oof) := by
  intro fuel
  induction fuel with
  | zero => exact fun h => ⟨fun _ => rfl, fun _ => rfl⟩
  | succ n ih =>
    intro h
    constructor
    · rintro ⟨e2, e4, e6⟩
      simp only [remove_fixup]
      simp [remove_fixup_step, rotate, is_root, is_red, is_left, is_black, get_dir,
        getChild, setChild, setParent, setColor, writeNode, Dir.opposite, Option.all,
        e2, e4, e6]
      apply (ih _).2
      refine ⟨?_, ?_, ?_⟩ <;>
        simp [setChild, setParent, setColor, writeNode, e2, e4, e6]
    · rintro ⟨e2, e4, e6⟩
      simp only [remove_fixup]
      simp [remove_fixup_step, rotate, is_root, is_red, is_left, is_black, get_dir,
        getChild, setChild, setParent, setColor, writeNode, Dir.opposite, Option.all,
        e2, e4, e6]
      apply (ih _).1
      refine ⟨?_, ?_, ?_⟩ <;>
        simp [setChild, setParent, setColor, writeNode, e2, e4, e6]

lemma remove_fixup_from_pre : ∀ (fuel : Nat) (h : Heap), cycPre h →
    remove_fixup fuel h 2 = .oof := by
  intro fuel h hc
  obtain ⟨e2, e4, e6⟩ := hc
  cases fuel with
  | zero => rfl
  | succ n =>
    simp only [remove_fixup]
    simp [remove_fixup_step, rotate, is_root, is_red, is_left, is_black, get_dir,
      getChild, setChild, setParent, setColor, writeNode, Dir.opposite, Option.all,
      e2, e4, e6]
    apply (remove_fixup_cycle n _).1
    refine ⟨?_, ?_, ?_⟩ <;>
      simp [setChild, setParent, setColor, writeNode, e2, e4, e6]

/-- C8 test: the operations of `c8Ops` all complete, yet `remove()` on
node 2 then never terminates for any amount of fuel. -/
theorem C8_remove_never_terminates :
    ∀ fuel : Nat, remOutcome (finalHeap c8Ops) fuel 2 = .oof := by
  have h2f : peek (finalHeap c8Ops) 2 = some ⟨.Black, none, none, some 4⟩ := by decide
  have h4f : peek (finalHeap c8Ops) 4 = some ⟨.Red, some 2, some 6, some 1⟩ := by decide
  have h6f : peek (finalHeap c8Ops) 6 = some ⟨.Black, some 4, none, some 4⟩ := by decide
  intro fuel
  cases hr : finalHeap c8Ops with
  | ok h =>
    rw [hr] at h2f h4f h6f
    simp only [peek] at h2f h4f h6f
    have e2 := Option.some.inj h2f
    have e4 := Option.some.inj h4f
    have e6 := Option.some.inj h6f
    simp only [remOutcome]
    have hrem : remove fuel h 2 = .oof := by
      simp only [remove, remove_swap_successor, is_black, e2]
      rw [remove_fixup_from_pre fuel h ⟨e2, e4, e6⟩]
      simp
    rw [hrem]
  | ub =>
    rw [hr] at h2f
    simp [peek] at h2f
  | oof =>
    rw [hr] at h2f
    simp [peek] at h2f

end RBT

namespace RBT

/-- C10: for a root node (null parent pointer), `is_left()` and `is_right()`
both return true, because both short-circuit on `!parent`; for a non-root
node that is a child of its parent on exactly one side (which is what link
consistency gives: the parent's two child slots differ), exactly one of
`is_left()` and `is_right()` returns true. -/
theorem C10_is_left_is_right_directions :
    (∀ (h : Heap) (x : Nat), (h x).parent = none →
      is_left h x = true ∧ is_right h x = true)
    ∧ (∀ (h : Heap) (x p : Nat), (h x).parent = some p →
      ((h p).left = some x ∨ (h p).right = some x) →
      (h p).left ≠ (h p).right →
      is_left h x ≠ is_right h x) := by
  constructor
  · intro h x hp
    constructor <;> simp [is_left, is_right, hp]
  · intro h x p hp hchild hne
    rcases hchild with hl | hr
    · have hrne : (h p).right ≠ some x := fun hcon => hne (hl.trans hcon.symm)
      simp [is_left, is_right, hp, hl, hrne]
    · have hlne : (h p).left ≠ some x := fun hcon => hne (hcon.trans hr.symm)
      simp [is_left, is_right, hp, hr, hlne]

/-- A tiny two-node heap: node 1 is the root with left child 0. -/
def twoNodeHeap : Heap :=
  fun j =>
    if j = 0 then ⟨.Red, none, none, some 1⟩
    else if j = 1 then ⟨.Black, some 0, none, none⟩
    else {}

/-- Witness for C10 at a concrete heap: the root 1 answers true to both
direction queries, and its left child 0 answers true to exactly one. -/
theorem C10_is_left_is_right_directions_witness :
    (is_left twoNodeHeap 1 = true ∧ is_right twoNodeHeap 1 = true)
    ∧ is_left twoNodeHeap 0 ≠ is_right twoNodeHeap 0 := by
  constructor
  · exact C10_is_left_is_right_directions.1 twoNodeHeap 1 (by decide)
  · exact C10_is_left_is_right_directions.2 twoNodeHeap 0 1 (by decide)
      (by decide) (by decide)

end RBT

namespace UF

open RBT (Res)

/-- Model of the `UnionFind` class state: its two vectors (`Index` is
instantiated at `Nat`; the claims only concern indices `0..n-1`). -/
structure UnionFind where
  parent : List Nat
  rank : List Nat
deriving DecidableEq

/-- Model of the constructor `UnionFind(size)`: `parent(size)` followed by
the loop `parent[i] = i`, and `rank(size, 1)`. -/
def mkUnionFind (size : Nat) : UnionFind :=
  { parent := List.range size, rank := List.replicate size 1 }

/-- Model of the const overload of `find`:
`while (p != parent[p]) p = parent[p]; return p;`.  An out-of-bounds
`parent[p]` is undefined behaviour (`ub`); `fuel` bounds the loop. -/
def findConst (fuel : Nat) (uf : UnionFind) (p : Nat) : Res Nat :=
  match fuel with
  | 0 => .oof
  | fuel + 1 =>
    match uf.parent[p]? with
    | none => .ub
    | some pp => if p = pp then .ok p else findConst fuel uf pp

/-- Model of the mutating overload of `find`:
`return parent[p] = std::as_const(*this).find(p);`. -/
def find (fuel : Nat) (uf : UnionFind) (p : Nat) : Res (UnionFind × Nat) :=
  match findConst fuel uf p with
  | .ok r => .ok ({ uf with parent := uf.parent.set p r }, r)
  | .ub => .ub
  | .oof => .oof

/-- Model of `merge`.  The two initial calls are to the mutating `find`;
the rank comparison and the `std::swap` are expressed by selecting the
swapped pair directly (the ranks are not written between the reads). -/
def merge (fuel : Nat) (uf : UnionFind) (x y : Nat) : Res UnionFind :=
  -- x = find(x); y = find(y);
  match find fuel uf x with
  | .ub => .ub
  | .oof => .oof
  | .ok (uf1, x1) =>
    match find fuel uf1 y with
    | .ub => .ub
    | .oof => .oof
    | .ok (uf2, y1) =>
      match uf2.rank[x1]?, uf2.rank[y1]? with
      | some rx, some ry =>
        -- if (rank[x] < rank[y]) std::swap(x, y);
        let x2 := if rx < ry then y1 else x1
        let y2 := if rx < ry then x1 else y1
        let rx2 := if rx < ry then ry else rx
        let ry2 := if rx < ry then rx else ry
        -- rank[y] = rank[x] += !!(rank[x] == rank[y]);
        let newRank := rx2 + (if rx2 = ry2 then 1 else 0)
        let uf3 := { uf2 with rank := (uf2.rank.set x2 newRank).set y2 newRank }
        -- parent[y] = parent[x] = x;
        .ok { uf3 with parent := (uf3.parent.set x2 x2).set y2 x2 }
      | _, _ => .ub

/-- Model of `connected`: `return find(x) == find(y);` on the const
overload (both calls read the same unmodified state, so the unspecified
C++ evaluation order is immaterial). -/
def connected (fuel : Nat) (uf : UnionFind) (x y : Nat) : Res Bool :=
  match findConst fuel uf x with
  | .ub => .ub
  | .oof => .oof
  | .ok rx =>
    match findConst fuel uf y with
    | .ub => .ub
    | .oof => .oof
    | .ok ry => .ok (rx = ry)

/-- Parent of `i`, read mathematically (out of range reads as `i` itself,
which never occurs under validity). -/
def pget (uf : UnionFind) (i : Nat) : Nat := uf.parent.getD i i

/-- Rank of `i`, read mathematically. -/
def rget (uf : UnionFind) (i : Nat) : Nat := uf.rank.getD i 0

/-- One step along a parent chain. -/
def chainStep (uf : UnionFind) (a b : Nat) : Prop :=
  a < uf.parent.length ∧ b = pget uf a

/-- Reachability along parent chains. -/
def onChain (uf : UnionFind) : Nat → Nat → Prop :=
  Relation.ReflTransGen (chainStep uf)

/-- The invariant maintained by the structure: ranks and parents have the
same length, parents stay in range, and the rank strictly increases along
each nontrivial parent link, except that it may stay equal on a link whose
target is a root (the state `merge` leaves the demoted root's former
equal-rank children in, and also the demoted root itself, whose rank the
source sets equal to the new root's). -/
def Valid (uf : UnionFind) : Prop :=
  uf.rank.length = uf.parent.length
  ∧ ∀ i, i < uf.parent.length →
      pget uf i < uf.parent.length
      ∧ (pget uf i ≠ i →
          rget uf i < rget uf (pget uf i)
          ∨ (rget uf i = rget uf (pget uf i) ∧ pget uf (pget uf i) = pget uf i))

lemma read_eq {uf : UnionFind} {i : Nat} (hi : i < uf.parent.length) :
    uf.parent[i]? = some (pget uf i) := by
  rw [List.getElem?_eq_getElem hi]
  simp [pget, List.getD_eq_getElem?_getD, List.getElem?_eq_getElem hi]

lemma rank_read_eq {uf : UnionFind} (hv : Valid uf) {i : Nat}
    (hi : i < uf.parent.length) : uf.rank[i]? = some (rget uf i) := by
  have hi' : i < uf.rank.length := hv.1 ▸ hi
  rw [List.getElem?_eq_getElem hi']
  simp [rget, List.getD_eq_getElem?_getD, List.getElem?_eq_getElem hi']

lemma mk_valid (n : Nat) : Valid (mkUnionFind n) := by
  constructor
  · simp [mkUnionFind]
  · intro i hi
    have hi' : i < n := by simpa [mkUnionFind] using hi
    have hp : pget (mkUnionFind n) i = i := by
      simp [pget, mkUnionFind, List.getD_eq_getElem?_getD, List.getElem?_range hi']
    constructor
    · rw [hp]; simpa [mkUnionFind] using hi'
    · intro hne
      exact absurd hp hne

lemma mk_length (n : Nat) : (mkUnionFind n).parent.length = n := by
  simp [mkUnionFind]

lemma chain_root_fixed {uf : UnionFind} {r s : Nat} (hr : pget uf r = r)
    (h : onChain uf r s) : s = r := by
  induction h with
  | refl => rfl
  | tail _ hstep ih => rw [hstep.2, ih, hr]

lemma chainStep_right_unique (uf : UnionFind) : Relator.RightUnique (chainStep uf) := by
  intro a b c hb hc
  rw [hb.2, hc.2]

lemma root_unique {uf : UnionFind} {i r r' : Nat}
    (h1 : onChain uf i r) (hr1 : pget uf r = r)
    (h2 : onChain uf i r') (hr2 : pget uf r' = r') : r = r' := by
  rcases Relation.ReflTransGen.total_of_right_unique (chainStep_right_unique uf) h1 h2 with h | h
  · exact (chain_root_fixed hr1 h).symm
  · exact chain_root_fixed hr2 h

/-- Measure for the parent walk: how many indices have rank at least `i`'s. -/
def meas (uf : UnionFind) (i : Nat) : Nat :=
  ((Finset.range uf.parent.length).filter (fun j => rget uf i ≤ rget uf j)).card

lemma meas_le (uf : UnionFind) (i : Nat) : meas uf i ≤ uf.parent.length := by
  calc meas uf i ≤ (Finset.range uf.parent.length).card := Finset.card_filter_le _ _
  _ = uf.parent.length := Finset.card_range _

lemma meas_lt {uf : UnionFind} {i : Nat} (hi : i < uf.parent.length)
    (hlt : rget uf i < rget uf (pget uf i)) : meas uf (pget uf i) < meas uf i := by
  apply Finset.card_lt_card
  constructor
  · intro j hj
    simp only [Finset.mem_filter, Finset.mem_range] at hj ⊢
    exact ⟨hj.1, le_trans (le_of_lt hlt) hj.2⟩
  · intro hsub
    have hmem : i ∈ (Finset.range uf.parent.length).filter
        (fun j => rget uf i ≤ rget uf j) := by
      simp [Finset.mem_filter, Finset.mem_range, hi]
    have := hsub hmem
    simp only [Finset.mem_filter, Finset.mem_range] at this
    exact absurd this.2 (not_le_of_lt hlt)

lemma findConst_ok_aux (uf : UnionFind) (hv : Valid uf) :
    ∀ fuel i, i < uf.parent.length → meas uf i < fuel →
      ∃ r, findConst (fuel + 1) uf i = .ok r ∧ onChain uf i r ∧ pget uf r = r
        ∧ r < uf.parent.length := by
  intro fuel
  induction fuel with
  | zero => exact fun i _ hm => absurd hm (Nat.not_lt_zero _)
  | succ n ih =>
    intro i hi hm
    by_cases heq : i = pget uf i
    · refine ⟨i, ?_, .refl, heq.symm, hi⟩
      simp [findConst, read_eq hi, if_pos heq]
    · have hp : pget uf i < uf.parent.length := (hv.2 i hi).1
      have hstep1 : chainStep uf i (pget uf i) := ⟨hi, rfl⟩
      rcases (hv.2 i hi).2 (fun h => heq h.symm) with hlt | ⟨_, hroot⟩
      · have hmp : meas uf (pget uf i) < n := lt_of_lt_of_le
          (meas_lt hi hlt) (Nat.lt_succ_iff.mp hm)
        obtain ⟨r, hr, hchain, hrt, hrlt⟩ := ih (pget uf i) hp hmp
        refine ⟨r, ?_, Relation.ReflTransGen.head hstep1 hchain, hrt, hrlt⟩
        simp only [findConst, read_eq hi]
        rw [if_neg heq]
        exact hr
      · refine ⟨pget uf i, ?_, Relation.ReflTransGen.single hstep1, hroot, hp⟩
        simp only [findConst, read_eq hi]
        rw [if_neg heq]
        simp [findConst, read_eq hp, if_pos hroot.symm]

lemma findConst_mono : ∀ fuel fuel' (uf : UnionFind) (i r : Nat), fuel ≤ fuel' →
    findConst fuel uf i = .ok r → findConst fuel' uf i = .ok r := by
  intro fuel
  induction fuel with
  | zero => intro fuel' uf i r _ h; exact absurd h (by simp [findConst])
  | succ n ih =>
    intro fuel' uf i r hle h
    cases fuel' with
    | zero => exact absurd hle (by omega)
    | succ m =>
      revert h
      simp only [findConst]
      cases huf : uf.parent[i]? with
      | none => exact id
      | some pp =>
        dsimp only
        by_cases hip : i = pp
        · simp [hip]
        · rw [if_neg hip, if_neg hip]
          exact ih m uf pp r (by omega)

/-- Existence, chain membership, rootness and uniqueness for `findConst`,
at any fuel beyond `length + 1`. -/
lemma findConst_spec {uf : UnionFind} (hv : Valid uf) {i fuel : Nat}
    (hi : i < uf.parent.length) (hfuel : uf.parent.length + 2 ≤ fuel) :
    ∃ r, findConst fuel uf i = .ok r ∧ onChain uf i r ∧ pget uf r = r
      ∧ r < uf.parent.length
      ∧ (∀ r', onChain uf i r' → pget uf r' = r' → r' = r) := by
  obtain ⟨r, hr, hchain, hrt, hlt⟩ := findConst_ok_aux uf hv (uf.parent.length + 1) i hi
    (lt_of_le_of_lt (meas_le uf i) (by omega))
  exact ⟨r, findConst_mono _ _ _ _ _ (by omega) hr, hchain, hrt, hlt,
    fun r' hc' hrt' => root_unique hc' hrt' hchain hrt⟩

/-- The state the mutating `find` writes: one parent slot redirected. -/
def withParentSet (uf : UnionFind) (i v : Nat) : UnionFind :=
  { uf with parent := uf.parent.set i v }

lemma pget_withParentSet {uf : UnionFind} {i v : Nat} (hi : i < uf.parent.length)
    (j : Nat) : pget (withParentSet uf i v) j = if j = i then v else pget uf j := by
  simp only [withParentSet, pget, List.getD_eq_getElem?_getD, List.getElem?_set]
  by_cases hj : j = i
  · simp [hj, hi]
  · have hij : i ≠ j := fun h => hj h.symm
    simp [hj, hij]

lemma rget_withParentSet (uf : UnionFind) (i v j : Nat) :
    rget (withParentSet uf i v) j = rget uf j := rfl

lemma length_withParentSet (uf : UnionFind) (i v : Nat) :
    (withParentSet uf i v).parent.length = uf.parent.length := by
  simp [withParentSet]

lemma rank_le_of_step {uf : UnionFind} (hv : Valid uf) {a : Nat}
    (ha : a < uf.parent.length) : rget uf a ≤ rget uf (pget uf a) := by
  by_cases h : pget uf a = a
  · rw [h]
  · rcases (hv.2 a ha).2 h with h1 | h1
    · exact le_of_lt h1
    · exact le_of_eq h1.1

lemma rank_le_of_chain {uf : UnionFind} (hv : Valid uf) {a b : Nat}
    (h : onChain uf a b) : rget uf a ≤ rget uf b := by
  induction h with
  | refl => exact le_rfl
  | tail _ hstep ih => exact le_trans ih (hstep.2 ▸ rank_le_of_step hv hstep.1)

lemma compress_root_stable {uf : UnionFind} {x r q : Nat}
    (hx : x < uf.parent.length) (hchain : onChain uf x r) (hq : pget uf q = q) :
    pget (withParentSet uf x r) q = q := by
  rw [pget_withParentSet hx]
  by_cases hqx : q = x
  · subst hqx
    rw [if_pos rfl]
    exact chain_root_fixed hq hchain
  · rw [if_neg hqx]
    exact hq

lemma compress_valid {uf : UnionFind} (hv : Valid uf) {x r : Nat}
    (hx : x < uf.parent.length) (hchain : onChain uf x r) (hr : pget uf r = r)
    (hrlt : r < uf.parent.length) :
    Valid (withParentSet uf x r) := by
  constructor
  · simpa [withParentSet] using hv.1
  · intro j hj
    rw [length_withParentSet] at hj
    rw [length_withParentSet]
    by_cases hjx : j = x
    · subst hjx
      rw [pget_withParentSet hx, if_pos rfl]
      constructor
      · exact hrlt
      · intro hne
        rw [rget_withParentSet, rget_withParentSet]
        rcases lt_or_eq_of_le (rank_le_of_chain hv hchain) with h1 | h1
        · exact Or.inl h1
        · refine Or.inr ⟨h1, ?_⟩
          rw [pget_withParentSet hx, if_neg hne]
          exact hr
    · rw [pget_withParentSet hx, if_neg hjx]
      refine ⟨(hv.2 j hj).1, ?_⟩
      intro hne
      rw [rget_withParentSet, rget_withParentSet]
      rcases (hv.2 j hj).2 hne with h1 | h1
      · exact Or.inl h1
      · refine Or.inr ⟨h1.1, ?_⟩
        exact compress_root_stable hx hchain h1.2

lemma compress_chain_fwd {uf : UnionFind} {x r : Nat}
    (hx : x < uf.parent.length) (hchain : onChain uf x r) (hr : pget uf r = r) :
    ∀ {j q : Nat}, onChain uf j q → pget uf q = q →
      onChain (withParentSet uf x r) j q := by
  intro j q hjq hq
  induction hjq using Relation.ReflTransGen.head_induction_on with
  | refl => exact Relation.ReflTransGen.refl
  | head hstep htail ih =>
    rename_i a c
    by_cases hax : a = x
    · subst hax
      have hqr : q = r := root_unique (Relation.ReflTransGen.head hstep htail) hq hchain hr
      subst hqr
      refine Relation.ReflTransGen.single ⟨?_, ?_⟩
      · rw [length_withParentSet]; exact hstep.1
      · rw [pget_withParentSet hx, if_pos rfl]
    · refine Relation.ReflTransGen.head ⟨?_, ?_⟩ ih
      · rw [length_withParentSet]; exact hstep.1
      · rw [pget_withParentSet hx, if_neg hax]; exact hstep.2

lemma findConst_eq_root {uf : UnionFind} (hv : Valid uf) {i r fuel : Nat}
    (hi : i < uf.parent.length) (hfuel : uf.parent.length + 2 ≤ fuel)
    (hchain : onChain uf i r) (hr : pget uf r = r) :
    findConst fuel uf i = .ok r := by
  obtain ⟨r0, h0, hc0, hr0, _, huniq⟩ := findConst_spec hv hi hfuel
  rw [huniq r hchain hr]
  exact h0

/-- Full specification of the mutating `find`: it returns the unique root
of the argument's parent chain, compresses only the argument's own slot,
keeps the structure valid, and answers every `connected` query as before. -/
lemma find_spec {uf : UnionFind} (hv : Valid uf) {x fuel : Nat}
    (hx : x < uf.parent.length) (hfuel : uf.parent.length + 2 ≤ fuel) :
    ∃ r, find fuel uf x = .ok (withParentSet uf x r, r)
      ∧ onChain uf x r ∧ pget uf r = r ∧ r < uf.parent.length
      ∧ (∀ r', onChain uf x r' → pget uf r' = r' → r' = r)
      ∧ Valid (withParentSet uf x r)
      ∧ (∀ a b, a < uf.parent.length → b < uf.parent.length →
          connected fuel (withParentSet uf x r) a b = connected fuel uf a b) := by
  obtain ⟨r, hok, hchain, hr, hrlt, huniq⟩ := findConst_spec hv hx hfuel
  have hv' := compress_valid hv hx hchain hr hrlt
  refine ⟨r, ?_, hchain, hr, hrlt, huniq, hv', ?_⟩
  · simp [find, hok, withParentSet]
  · intro a b ha hb
    obtain ⟨ra, hra, hca, hta, _, _⟩ := findConst_spec hv ha hfuel
    obtain ⟨rb, hrb, hcb, htb, _, _⟩ := findConst_spec hv hb hfuel
    have hfuel' : (withParentSet uf x r).parent.length + 2 ≤ fuel := by
      rw [length_withParentSet]; exact hfuel
    have hra' : findConst fuel (withParentSet uf x r) a = .ok ra :=
      findConst_eq_root hv' (by rw [length_withParentSet]; exact ha) hfuel'
        (compress_chain_fwd hx hchain hr hca hta)
        (compress_root_stable hx hchain hta)
    have hrb' : findConst fuel (withParentSet uf x r) b = .ok rb :=
      findConst_eq_root hv' (by rw [length_withParentSet]; exact hb) hfuel'
        (compress_chain_fwd hx hchain hr hcb htb)
        (compress_root_stable hx hchain htb)
    simp [connected, hra, hrb, hra', hrb']

/-- The state `merge` finally writes: both chosen roots' ranks set to the
new rank, the kept root's parent slot rewritten to itself, and the demoted
root's parent slot aimed at the kept root. -/
def linkState (u : UnionFind) (a b newr : Nat) : UnionFind :=
  { parent := (u.parent.set a a).set b a
    rank := (u.rank.set a newr).set b newr }

lemma length_linkState (u : UnionFind) (a b newr : Nat) :
    (linkState u a b newr).parent.length = u.parent.length := by
  simp [linkState]

lemma pget_linkState {u : UnionFind} {a b w : Nat} (ha : a < u.parent.length)
    (hb : b < u.parent.length) (j : Nat) :
    pget (linkState u a b w) j
      = if j = b then a else if j = a then a else pget u j := by
  simp only [linkState, pget, List.getD_eq_getElem?_getD, List.getElem?_set,
    List.length_set]
  by_cases hjb : j = b
  · simp [hjb, hb]
  · have hbj : b ≠ j := fun h => hjb h.symm
    by_cases hja : j = a
    · by_cases hba : b = a <;> simp [hjb, hbj, hja, hba, ha, hb]
    · have haj : a ≠ j := fun h => hja h.symm
      simp [hjb, hbj, hja, haj]

lemma rget_linkState {u : UnionFind} {a b w : Nat} (ha : a < u.rank.length)
    (hb : b < u.rank.length) (j : Nat) :
    rget (linkState u a b w) j
      = if j = b then w else if j = a then w else rget u j := by
  simp only [linkState, rget, List.getD_eq_getElem?_getD, List.getElem?_set,
    List.length_set]
  by_cases hjb : j = b
  · simp [hjb, hb]
  · have hbj : b ≠ j := fun h => hjb h.symm
    by_cases hja : j = a
    · by_cases hba : b = a <;> simp [hjb, hbj, hja, hba, ha, hb]
    · have haj : a ≠ j := fun h => hja h.symm
      simp [hjb, hbj, hja, haj]

lemma valid_linkState {u : UnionFind} (hv : Valid u) {a b newr : Nat}
    (ha : a < u.parent.length) (hb : b < u.parent.length)
    (hra : pget u a = a) (hrb : pget u b = b)
    (hge : rget u a ≤ newr) (hlt : b ≠ a → rget u b < newr) :
    Valid (linkState u a b newr) := by
  have ha' : a < u.rank.length := hv.1 ▸ ha
  have hb' : b < u.rank.length := hv.1 ▸ hb
  have hpg := pget_linkState (u := u) (w := newr) ha hb
  have hrg := rget_linkState (u := u) (w := newr) ha' hb'
  refine ⟨by simp [linkState, hv.1], ?_⟩
  intro j hj
  rw [length_linkState] at hj
  rw [length_linkState]
  refine ⟨?_, ?_⟩
  · rw [hpg]
    by_cases hjb : j = b
    · rw [if_pos hjb]; exact ha
    · rw [if_neg hjb]
      by_cases hja : j = a
      · rw [if_pos hja]; exact ha
      · rw [if_neg hja]; exact (hv.2 j hj).1
  · intro hne
    rw [hpg] at hne
    simp only [hpg, hrg]
    by_cases hjb : j = b
    · rw [if_pos hjb] at hne
      have hab : ¬a = b := fun h => hne (h.trans hjb.symm)
      simp [hjb, hab]
    · rw [if_neg hjb] at hne
      by_cases hja : j = a
      · rw [if_pos hja] at hne
        exact absurd hja.symm hne
      · rw [if_neg hja] at hne
        have hinv := (hv.2 j hj).2 hne
        by_cases hqb : pget u j = b
        · have hjleb : rget u j ≤ rget u b := by
            rcases hinv with h1 | h1
            · exact le_of_lt (hqb ▸ h1)
            · exact le_of_eq (hqb ▸ h1.1)
          by_cases hba : b = a
          · have h2 : rget u j ≤ newr := le_trans hjleb (by rw [hba]; exact hge)
            simp [hjb, hja, hqb, hba]
            omega
          · have h2 : rget u j < newr := lt_of_le_of_lt hjleb (hlt hba)
            have hab : ¬a = b := fun h => hba h.symm
            simp [hjb, hja, hqb, hab]
            omega
        · by_cases hqa : pget u j = a
          · have hjlea : rget u j ≤ rget u a := by
              rcases hinv with h1 | h1
              · exact le_of_lt (hqa ▸ h1)
              · exact le_of_eq (hqa ▸ h1.1)
            have h2 : rget u j ≤ newr := le_trans hjlea hge
            by_cases hab : a = b
            · simp [hjb, hja, hqa, hqb, hab]
              omega
            · simp [hjb, hja, hqa, hqb, hab]
              omega
          · simp [hjb, hja, hqa, hqb]
            rcases hinv with h1 | h1
            · exact Or.inl h1
            · exact Or.inr ⟨h1.1, h1.2⟩


lemma root_linkState {u : UnionFind} {a b newr : Nat} (ha : a < u.parent.length)
    (hb : b < u.parent.length) (q : Nat) (hq : pget u q = q) :
    pget (linkState u a b newr) (if q = b then a else q)
      = (if q = b then a else q) := by
  by_cases hqb : q = b
  · simp only [if_pos hqb]
    rw [pget_linkState ha hb]
    by_cases hab : a = b
    · rw [if_pos hab]
    · rw [if_neg hab, if_pos rfl]
  · simp only [if_neg hqb]
    rw [pget_linkState ha hb, if_neg hqb]
    by_cases hqa : q = a
    · rw [if_pos hqa]; exact hqa.symm
    · rw [if_neg hqa]; exact hq

lemma chain_linkState {u : UnionFind} {a b newr : Nat}
    (ha : a < u.parent.length) (hb : b < u.parent.length)
    (hra : pget u a = a) (hrb : pget u b = b) :
    ∀ {j q : Nat}, onChain u j q → pget u q = q →
      onChain (linkState u a b newr) j (if q = b then a else q) := by
  intro j q hjq hq
  induction hjq using Relation.ReflTransGen.head_induction_on with
  | refl =>
    by_cases hqb : q = b
    · rw [if_pos hqb]
      refine Relation.ReflTransGen.single ⟨?_, ?_⟩
      · rw [length_linkState]; exact hqb ▸ hb
      · rw [pget_linkState ha hb, if_pos hqb]
    · rw [if_neg hqb]
      exact Relation.ReflTransGen.refl
  | head hstep htail ih =>
    rename_i s c
    by_cases hsb : s = b
    · have hcb : c = b := by rw [hstep.2, hsb, hrb]
      have hqb : q = b := chain_root_fixed hrb (hcb ▸ htail)
      rw [if_pos hqb]
      refine Relation.ReflTransGen.single ⟨?_, ?_⟩
      · rw [length_linkState]; exact hsb ▸ hb
      · rw [hsb, pget_linkState ha hb, if_pos rfl]
    · by_cases hsa : s = a
      · have hca : c = a := by rw [hstep.2, hsa, hra]
        have hqa : q = a := chain_root_fixed hra (hca ▸ htail)
        have hval : (if q = b then a else q) = a := by
          rw [hqa]
          by_cases hab : a = b
          · rw [if_pos hab]
          · rw [if_neg hab]
        rw [hval, hsa]
        exact Relation.ReflTransGen.refl
      · refine Relation.ReflTransGen.head ⟨?_, ?_⟩ ih
        · rw [length_linkState]; exact hstep.1
        · rw [pget_linkState ha hb, if_neg hsb, if_neg hsa]
          exact hstep.2

/-- Full specification of `merge`: it succeeds, keeps the structure valid,
makes its two arguments connected, and preserves every previously
answered-true connection. -/
lemma merge_spec {uf : UnionFind} (hv : Valid uf) {x y fuel : Nat}
    (hx : x < uf.parent.length) (hy : y < uf.parent.length)
    (hfuel : uf.parent.length + 2 ≤ fuel) :
    ∃ ufC, merge fuel uf x y = .ok ufC
      ∧ Valid ufC ∧ ufC.parent.length = uf.parent.length
      ∧ connected fuel ufC x y = .ok true
      ∧ (∀ a b, a < uf.parent.length → b < uf.parent.length →
          connected fuel uf a b = .ok true → connected fuel ufC a b = .ok true) := by
  classical
  obtain ⟨rx, hfx, hcx, hrx, hrxlt, _, hvA, _⟩ := find_spec hv hx hfuel
  have hlenA : (withParentSet uf x rx).parent.length = uf.parent.length :=
    length_withParentSet uf x rx
  have hyA : y < (withParentSet uf x rx).parent.length := by rw [hlenA]; exact hy
  have hfuelA : (withParentSet uf x rx).parent.length + 2 ≤ fuel := by
    rw [hlenA]; exact hfuel
  obtain ⟨ry, hfy, hcyA, hryA, hryltA, _, hvB, _⟩ := find_spec hvA hyA hfuelA
  set ufB := withParentSet (withParentSet uf x rx) y ry with hufB
  have hlenB : ufB.parent.length = uf.parent.length := by
    rw [hufB, length_withParentSet, hlenA]
  have hrxA : pget (withParentSet uf x rx) rx = rx :=
    compress_root_stable hx hcx hrx
  have hrxB : pget ufB rx = rx := compress_root_stable hyA hcyA hrxA
  have hryB : pget ufB ry = ry := compress_root_stable hyA hcyA hryA
  have hrxltB : rx < ufB.parent.length := by rw [hlenB]; exact hrxlt
  have hryltB : ry < ufB.parent.length := by rw [hlenB, ← hlenA]; exact hryltA
  have hrankx : ufB.rank[rx]? = some (rget ufB rx) := rank_read_eq hvB hrxltB
  have hranky : ufB.rank[ry]? = some (rget ufB ry) := rank_read_eq hvB hryltB
  set rxv := rget ufB rx with hrxv
  set ryv := rget ufB ry with hryv
  set x2 := if rxv < ryv then ry else rx with hx2def
  set y2 := if rxv < ryv then rx else ry with hy2def
  set newr := (if rxv < ryv then ryv else rxv)
    + (if (if rxv < ryv then ryv else rxv) = (if rxv < ryv then rxv else ryv)
        then 1 else 0) with hnewrdef
  have hmerge : merge fuel uf x y = .ok (linkState ufB x2 y2 newr) := by
    simp only [merge, hfx, hfy, ← hufB, hrankx, hranky, linkState]
  have hx2root : pget ufB x2 = x2 := by
    rw [hx2def]; by_cases hc : rxv < ryv
    · rw [if_pos hc]; exact hryB
    · rw [if_neg hc]; exact hrxB
  have hy2root : pget ufB y2 = y2 := by
    rw [hy2def]; by_cases hc : rxv < ryv
    · rw [if_pos hc]; exact hrxB
    · rw [if_neg hc]; exact hryB
  have hx2lt : x2 < ufB.parent.length := by
    rw [hx2def]; by_cases hc : rxv < ryv
    · rw [if_pos hc]; exact hryltB
    · rw [if_neg hc]; exact hrxltB
  have hy2lt : y2 < ufB.parent.length := by
    rw [hy2def]; by_cases hc : rxv < ryv
    · rw [if_pos hc]; exact hrxltB
    · rw [if_neg hc]; exact hryltB
  have hx2rank : rget ufB x2 = if rxv < ryv then ryv else rxv := by
    rw [hx2def]; by_cases hc : rxv < ryv
    · rw [if_pos hc, if_pos hc]
    · rw [if_neg hc, if_neg hc]
  have hy2rank : rget ufB y2 = if rxv < ryv then rxv else ryv := by
    rw [hy2def]; by_cases hc : rxv < ryv
    · rw [if_pos hc, if_pos hc]
    · rw [if_neg hc, if_neg hc]
  have hge : rget ufB x2 ≤ newr := by
    rw [hx2rank, hnewrdef]; exact Nat.le_add_right _ _
  have hlt : y2 ≠ x2 → rget ufB y2 < newr := by
    intro _
    rw [hy2rank, hnewrdef]
    by_cases hc : rxv < ryv
    · simp only [if_pos hc]
      by_cases he : ryv = rxv <;> simp [he] <;> omega
    · simp only [if_neg hc]
      by_cases he : rxv = ryv <;> simp [he] <;> omega
  have hvC := valid_linkState hvB hx2lt hy2lt hx2root hy2root hge hlt
  set ufC := linkState ufB x2 y2 newr with hufC
  have hlenC : ufC.parent.length = uf.parent.length := by
    rw [hufC, length_linkState, hlenB]
  have hfuelC : ufC.parent.length + 2 ≤ fuel := by rw [hlenC]; exact hfuel
  have hfuelB : ufB.parent.length + 2 ≤ fuel := by rw [hlenB]; exact hfuel
  -- roots in ufC after linking, for any element with a known root in ufB
  have rootC : ∀ {j q : Nat}, j < ufB.parent.length → onChain ufB j q →
      pget ufB q = q → findConst fuel ufC j = .ok (if q = y2 then x2 else q) := by
    intro j q hjlt hc hq
    exact findConst_eq_root hvC
      (by rw [hufC, length_linkState]; exact hjlt) hfuelC
      (chain_linkState hx2lt hy2lt hx2root hy2root hc hq)
      (root_linkState hx2lt hy2lt q hq)
  -- transport of chains from uf into ufB
  have chainB : ∀ {j q : Nat}, onChain uf j q → pget uf q = q →
      onChain ufB j q ∧ pget ufB q = q := by
    intro j q hc hq
    have h1 : onChain (withParentSet uf x rx) j q :=
      compress_chain_fwd hx hcx hrx hc hq
    have hq1 : pget (withParentSet uf x rx) q = q :=
      compress_root_stable hx hcx hq
    exact ⟨compress_chain_fwd hyA hcyA hryA h1 hq1,
      compress_root_stable hyA hcyA hq1⟩
  have hxB : onChain ufB x rx ∧ pget ufB rx = rx := chainB hcx hrx
  have hyB : onChain ufB y ry ∧ pget ufB ry = ry := by
    refine ⟨compress_chain_fwd hyA hcyA hryA hcyA hryA, hryB⟩
  have hxltB : x < ufB.parent.length := by rw [hlenB]; exact hx
  have hyltB : y < ufB.parent.length := by rw [hlenB]; exact hy
  -- rx and ry each map to x2 under the link
  have hmapx : (if rx = y2 then x2 else rx) = x2 := by
    by_cases hc : rxv < ryv
    · have : y2 = rx := by rw [hy2def, if_pos hc]
      rw [if_pos this.symm]
    · have : x2 = rx := by rw [hx2def, if_neg hc]
      by_cases hr2 : rx = y2
      · rw [if_pos hr2]
      · rw [if_neg hr2, this]
  have hmapy : (if ry = y2 then x2 else ry) = x2 := by
    by_cases hc : rxv < ryv
    · have : x2 = ry := by rw [hx2def, if_pos hc]
      by_cases hr2 : ry = y2
      · rw [if_pos hr2]
      · rw [if_neg hr2, this]
    · have : y2 = ry := by rw [hy2def, if_neg hc]
      rw [if_pos this.symm]
  have hfcx : findConst fuel ufC x = .ok x2 := by
    have := rootC hxltB hxB.1 hxB.2
    rwa [hmapx] at this
  have hfcy : findConst fuel ufC y = .ok x2 := by
    have := rootC hyltB hyB.1 hyB.2
    rwa [hmapy] at this
  refine ⟨ufC, hmerge, hvC, hlenC, ?_, ?_⟩
  · simp [connected, hfcx, hfcy]
  · intro a b ha hb hconn
    obtain ⟨ra, hfa, hca, hta, _, _⟩ := findConst_spec hv ha hfuel
    obtain ⟨rb, hfb, hcb, htb, _, _⟩ := findConst_spec hv hb hfuel
    simp only [connected, hfa, hfb] at hconn
    have hab : ra = rb := by simpa using hconn
    have haB := chainB hca hta
    have hbB := chainB hcb htb
    have haltB : a < ufB.parent.length := by rw [hlenB]; exact ha
    have hbltB : b < ufB.parent.length := by rw [hlenB]; exact hb
    have hfa' := rootC haltB haB.1 haB.2
    have hfb' := rootC hbltB hbB.1 hbB.2
    rw [hab] at hfa'
    simp [connected, hfa', hfb']


/-- C9: for a union-find over indices `0..n-1` (the freshly constructed
state is valid, and both operations preserve validity, so `Valid` states
are exactly the reachable ones): the mutating `find` returns the unique
index `r` on `x`'s parent chain with `parent[r] = r`, and leaves every
`connected` query answered as before; after `merge x y`, `connected x y`
returns true, and every pair answered connected before the merge is still
answered connected.  The fuel hypothesis only says the model's loop bound
is generous enough; `find`'s and `merge`'s loops never reach it. -/
theorem C9_union_find_find_merge_connected :
    (∀ n : Nat, Valid (mkUnionFind n) ∧ (mkUnionFind n).parent.length = n)
    ∧ (∀ (uf : UnionFind) (x fuel : Nat), Valid uf → x < uf.parent.length →
        uf.parent.length + 2 ≤ fuel →
        ∃ r, find fuel uf x = .ok (withParentSet uf x r, r)
          ∧ onChain uf x r ∧ pget uf r = r
          ∧ (∀ r', onChain uf x r' → pget uf r' = r' → r' = r)
          ∧ Valid (withParentSet uf x r)
          ∧ (∀ a b, a < uf.parent.length → b < uf.parent.length →
              connected fuel (withParentSet uf x r) a b = connected fuel uf a b))
    ∧ (∀ (uf : UnionFind) (x y fuel : Nat), Valid uf → x < uf.parent.length →
        y < uf.parent.length → uf.parent.length + 2 ≤ fuel →
        ∃ ufC, merge fuel uf x y = .ok ufC ∧ Valid ufC
          ∧ ufC.parent.length = uf.parent.length
          ∧ connected fuel ufC x y = .ok true
          ∧ (∀ a b, a < uf.parent.length → b < uf.parent.length →
              connected fuel uf a b = .ok true → connected fuel ufC a b = .ok true)) := by
  refine ⟨fun n => ⟨mk_valid n, mk_length n⟩, ?_, ?_⟩
  · intro uf x fuel hv hx hfuel
    obtain ⟨r, h1, h2, h3, _, h5, h6, h7⟩ := find_spec hv hx hfuel
    exact ⟨r, h1, h2, h3, h5, h6, h7⟩
  · intro uf x y fuel hv hx hy hfuel
    exact merge_spec hv hx hy hfuel

/-- Witness for C9 at a concrete input: over indices 0 and 1 of a fresh
two-element structure, `merge 0 1` succeeds and `connected 0 1` then
answers true. -/
theorem C9_union_find_witness :
    ∃ ufC, merge 4 (mkUnionFind 2) 0 1 = .ok ufC
      ∧ connected 4 ufC 0 1 = .ok true := by
  obtain ⟨ufC, hm, _, _, hc, _⟩ :=
    C9_union_find_find_merge_connected.2.2 (mkUnionFind 2) 0 1 4
      (mk_valid 2) (by decide) (by decide) (by decide)
  exact ⟨ufC, hm, hc⟩

end UF

namespace RBT

/-- Root id of a tree (`none` for the empty tree): what a child slot
pointing at it holds. -/
def rootOf : T → Option Nat
  | .nil => none
  | .nd i _ _ _ => some i

/-- The heap represents the tree `t` hanging below a parent `pa`: colors,
child slots and parent pointers all match. -/
def rep (h : Heap) (pa : Option Nat) : T → Prop
  | .nil => True
  | .nd i c l r =>
      (h i).color = c ∧ (h i).parent = pa
      ∧ (h i).left = rootOf l ∧ (h i).right = rootOf r
      ∧ rep h (some i) l ∧ rep h (some i) r

/-- A context (path from a focused subtree up to the root): each frame
records the parent's id and color, the side the focus occupies, and the
sibling subtree. -/
inductive Ctx where
  | top : Ctx
  | cons (p : Nat) (c : Color) (d : Dir) (sib : T) (up : Ctx) : Ctx

/-- Wrap a context back around a focused subtree. -/
def plug : Ctx → T → T
  | .top, t => t
  | .cons p c .Left sib k, t => plug k (.nd p c t sib)
  | .cons p c .Right sib k, t => plug k (.nd p c sib t)

/-- Parent id seen by the hole of a context. -/
def holeParent : Ctx → Option Nat
  | .top => none
  | .cons p _ _ _ _ => some p

/-- The heap represents the context `k` whose hole currently holds `hole`. -/
def repC (h : Heap) : Ctx → Option Nat → Prop
  | .top, _ => True
  | .cons p c d sib k, hole =>
      (h p).color = c ∧ (h p).parent = holeParent k
      ∧ (match d with
         | .Left => (h p).left = hole ∧ (h p).right = rootOf sib
         | .Right => (h p).right = hole ∧ (h p).left = rootOf sib)
      ∧ rep h (some p) sib ∧ repC h k (some p)

/-- Ids appearing in a context. -/
def inordC : Ctx → List Nat
  | .top => []
  | .cons p _ _ sib k => p :: inord sib ++ inordC k

lemma rep_plug (h : Heap) : ∀ (k : Ctx) (t : T),
    rep h none (plug k t) ↔ repC h k (rootOf t) ∧ rep h (holeParent k) t := by
  intro k
  induction k with
  | top => intro t; simp [plug, repC, holeParent]
  | cons p c d sib k ih =>
    intro t
    cases d with
    | Left =>
      rw [show plug (.cons p c .Left sib k) t = plug k (.nd p c t sib) from rfl]
      rw [ih (.nd p c t sib)]
      simp only [rep, repC, rootOf, holeParent]
      constructor
      · rintro ⟨hk, h1, h2, h3, h4, h5, h6⟩
        exact ⟨⟨h1, h2, ⟨h3, h4⟩, h6, hk⟩, h5⟩
      · rintro ⟨⟨h1, h2, ⟨h3, h4⟩, h6, hk⟩, h5⟩
        exact ⟨hk, h1, h2, h3, h4, h5, h6⟩
    | Right =>
      rw [show plug (.cons p c .Right sib k) t = plug k (.nd p c sib t) from rfl]
      rw [ih (.nd p c sib t)]
      simp only [rep, repC, rootOf, holeParent]
      constructor
      · rintro ⟨hk, h1, h2, h3, h4, h5, h6⟩
        exact ⟨⟨h1, h2, ⟨h4, h3⟩, h5, hk⟩, h6⟩
      · rintro ⟨⟨h1, h2, ⟨h4, h3⟩, h5, hk⟩, h6⟩
        exact ⟨hk, h1, h2, h3, h4, h5, h6⟩

lemma rep_frame {h h' : Heap} : ∀ {t : T} {pa : Option Nat},
    rep h pa t → (∀ j, j ∈ inord t → h' j = h j) → rep h' pa t := by
  intro t
  induction t with
  | nil => intro pa _ _; trivial
  | nd i c l r ihl ihr =>
    intro pa hrep hsame
    obtain ⟨h1, h2, h3, h4, h5, h6⟩ := hrep
    have hi : h' i = h i := hsame i (by simp [inord])
    refine ⟨hi ▸ h1, hi ▸ h2, hi ▸ h3, hi ▸ h4, ?_, ?_⟩
    · exact ihl h5 (fun j hj => hsame j (by simp [inord, hj]))
    · exact ihr h6 (fun j hj => hsame j (by simp [inord, hj]))

lemma repC_frame {h h' : Heap} : ∀ {k : Ctx} {hole : Option Nat},
    repC h k hole → (∀ j, j ∈ inordC k → h' j = h j) → repC h' k hole := by
  intro k
  induction k with
  | top => intro hole _ _; trivial
  | cons p c d sib k ih =>
    intro hole hrep hsame
    obtain ⟨h1, h2, h3, h4, h5⟩ := hrep
    have hp : h' p = h p := hsame p (by simp [inordC])
    refine ⟨hp ▸ h1, hp ▸ h2, ?_, ?_, ?_⟩
    · cases d with
      | Left => exact ⟨hp ▸ h3.1, hp ▸ h3.2⟩
      | Right => exact ⟨hp ▸ h3.1, hp ▸ h3.2⟩
    · exact rep_frame h4 (fun j hj => hsame j (by simp [inordC, hj]))
    · exact ih h5 (fun j hj => hsame j (by simp [inordC, hj]))

lemma inord_plug_perm : ∀ (k : Ctx) (t : T),
    List.Perm (inord (plug k t)) (inordC k ++ inord t) := by
  intro k
  induction k with
  | top => intro t; simp [plug, inordC]
  | cons p c d sib k ih =>
    intro t
    cases d with
    | Left =>
      rw [show plug (.cons p c .Left sib k) t = plug k (.nd p c t sib) from rfl]
      refine (ih (.nd p c t sib)).trans (List.perm_iff_count.mpr ?_)
      intro a
      simp only [inord, inordC, List.count_append, List.count_cons]
      omega
    | Right =>
      rw [show plug (.cons p c .Right sib k) t = plug k (.nd p c sib t) from rfl]
      refine (ih (.nd p c sib t)).trans (List.perm_iff_count.mpr ?_)
      intro a
      simp only [inord, inordC, List.count_append, List.count_cons]
      omega

lemma inord_plug_congr {t1 t2 : T} (h : inord t1 = inord t2) :
    ∀ (k : Ctx), inord (plug k t1) = inord (plug k t2) := by
  intro k
  induction k generalizing t1 t2 h with
  | top => exact h
  | cons p c d sib k ih =>
    cases d with
    | Left => exact ih (by simp [inord, h])
    | Right => exact ih (by simp [inord, h])

end RBT

namespace RBT

lemma writeNode_self (h : Heap) (i : Nat) (n : Node) : writeNode h i n i = n := by
  simp [writeNode]

lemma writeNode_other (h : Heap) (i j : Nat) (n : Node) (hne : j ≠ i) :
    writeNode h i n j = h j := by
  simp [writeNode, hne]

lemma rootOf_mem {t : T} {i : Nat} (h : rootOf t = some i) : i ∈ inord t := by
  cases t with
  | nil => simp [rootOf] at h
  | nd j c l r => simp [rootOf] at h; simp [inord, h]

/-- Cell-level effect of `rotate(x, Left)` on a heap where `x`'s right child
is `y`: the rotation succeeds and performs exactly the expected writes. -/
lemma rotate_left_cells {h0 : Heap} {x y : Nat} {pa : Option Nat} {dk : Dir}
    (hxp : (h0 x).parent = pa) (hxr : (h0 x).right = some y)
    (hyx : y ≠ x)
    (hpa : ∀ p, pa = some p → x ≠ p ∧ y ≠ p ∧ get_dir h0 x = dk)
    (hob : ∀ b, (h0 y).left = some b → b ≠ x ∧ b ≠ y ∧ ∀ p, pa = some p → b ≠ p) :
    ∃ h', rotate h0 x Dir.Left = .ok h'
      ∧ h' x = { h0 x with parent := some y, right := (h0 y).left }
      ∧ h' y = { h0 y with parent := pa, left := some x }
      ∧ (∀ b, (h0 y).left = some b → h' b = { h0 b with parent := some x })
      ∧ (∀ p, pa = some p → h' p = (match dk with
            | Dir.Left => { h0 p with left := some y }
            | Dir.Right => { h0 p with right := some y }))
      ∧ (∀ j, j ≠ x → j ≠ y → (h0 y).left ≠ some j → pa ≠ some j → h' j = h0 j) := by
  have hxy : x ≠ y := fun h => hyx h.symm
  cases pa with
  | none =>
    cases hbl : (h0 y).left with
    | none =>
      refine ⟨setChild (setChild (setParent (setParent h0 y none) x (some y))
          x Dir.Right none) y Dir.Left (some x), ?_, ?_, ?_, ?_, ?_, ?_⟩
      · simp [rotate, getChild, setChild, setParent, writeNode, Dir.opposite,
              hxp, hxr, hyx, hxy, hbl]
      · simp [setChild, setParent, writeNode, hyx, hxy, hbl]
      · simp [setChild, setParent, writeNode, hyx, hxy, hxp]
      · intro b hb; cases hb
      · intro p hp; cases hp
      · intro j hjx hjy _ _
        simp [setChild, setParent, writeNode, hjx, hjy]
    | some b =>
      obtain ⟨hbx, hby, _⟩ := hob b hbl
      have hxb : x ≠ b := fun h => hbx h.symm
      have hyb : y ≠ b := fun h => hby h.symm
      refine ⟨setChild (setParent (setChild (setParent (setParent h0 y none)
          x (some y)) x Dir.Right (some b)) b (some x)) y Dir.Left (some x),
          ?_, ?_, ?_, ?_, ?_, ?_⟩
      · simp [rotate, getChild, setChild, setParent, writeNode, Dir.opposite,
              hxp, hxr, hyx, hxy, hbl, hbx, hby, hxb, hyb]
      · simp [setChild, setParent, writeNode, hyx, hxy, hbl, hbx, hby, hxb, hyb]
      · simp [setChild, setParent, writeNode, hyx, hxy, hxp, hby, hyb]
      · intro b' hb'; injection hb' with hb'; subst hb'
        simp [setChild, setParent, writeNode, hbx, hby, hxb, hyb]
      · intro p hp; cases hp
      · intro j hjx hjy hjb _
        have hjb' : j ≠ b := fun h => hjb (by rw [h])
        simp [setChild, setParent, writeNode, hjx, hjy, hjb']
  | some p =>
    obtain ⟨hxpne, hypne, hdk⟩ := hpa p rfl
    have hpx : p ≠ x := fun h => hxpne h.symm
    have hpy : p ≠ y := fun h => hypne h.symm
    cases hbl : (h0 y).left with
    | none =>
      cases dk with
      | Left =>
        refine ⟨setChild (setChild (setParent (setParent (setChild h0 p
            Dir.Left (some y)) y (some p)) x (some y)) x Dir.Right none)
            y Dir.Left (some x), ?_, ?_, ?_, ?_, ?_, ?_⟩
        · simp [rotate, getChild, setChild, setParent, writeNode, Dir.opposite,
                hxp, hxr, hyx, hxy, hbl, hxpne, hypne, hdk]
        · simp [setChild, setParent, writeNode, hyx, hxy, hbl, hxpne, hypne]
        · simp [setChild, setParent, writeNode, hyx, hxy, hxp, hxpne, hypne]
        · intro b hb; cases hb
        · intro q hq; injection hq with hq; subst hq
          simp [setChild, setParent, writeNode, hxpne, hypne, hyx, hxy, hpx, hpy]
        · intro j hjx hjy _ hjp
          have hjp' : j ≠ p := fun h => hjp (by rw [h])
          simp [setChild, setParent, writeNode, hjx, hjy, hjp']
      | Right =>
        refine ⟨setChild (setChild (setParent (setParent (setChild h0 p
            Dir.Right (some y)) y (some p)) x (some y)) x Dir.Right none)
            y Dir.Left (some x), ?_, ?_, ?_, ?_, ?_, ?_⟩
        · simp [rotate, getChild, setChild, setParent, writeNode, Dir.opposite,
                hxp, hxr, hyx, hxy, hbl, hxpne, hypne, hdk]
        · simp [setChild, setParent, writeNode, hyx, hxy, hbl, hxpne, hypne]
        · simp [setChild, setParent, writeNode, hyx, hxy, hxp, hxpne, hypne]
        · intro b hb; cases hb
        · intro q hq; injection hq with hq; subst hq
          simp [setChild, setParent, writeNode, hxpne, hypne, hyx, hxy, hpx, hpy]
        · intro j hjx hjy _ hjp
          have hjp' : j ≠ p := fun h => hjp (by rw [h])
          simp [setChild, setParent, writeNode, hjx, hjy, hjp']
    | some b =>
      obtain ⟨hbx, hby, hbp0⟩ := hob b hbl
      have hbp : b ≠ p := hbp0 p rfl
      have hpb : p ≠ b := fun h => hbp h.symm
      have hxb : x ≠ b := fun h => hbx h.symm
      have hyb : y ≠ b := fun h => hby h.symm
      cases dk with
      | Left =>
        refine ⟨setChild (setParent (setChild (setParent (setParent (setChild
            h0 p Dir.Left (some y)) y (some p)) x (some y)) x Dir.Right
            (some b)) b (some x)) y Dir.Left (some x), ?_, ?_, ?_, ?_, ?_, ?_⟩
        · simp [rotate, getChild, setChild, setParent, writeNode, Dir.opposite,
                hxp, hxr, hyx, hxy, hbl, hxpne, hypne, hdk, hbx, hby, hbp, hxb, hyb, hpb]
        · simp [setChild, setParent, writeNode, hyx, hxy, hbl, hxpne, hypne,
                hbx, hby, hbp, hxb, hyb, hpb]
        · simp [setChild, setParent, writeNode, hyx, hxy, hxp, hxpne, hypne,
                hby, hbp, hyb, hpb]
        · intro b' hb'; injection hb' with hb'; subst hb'
          simp [setChild, setParent, writeNode, hbx, hby, hbp, hxb, hyb, hpb]
        · intro q hq; injection hq with hq; subst hq
          simp [setChild, setParent, writeNode, hxpne, hypne, hyx, hxy, hbp,
                hpx, hpy, hpb, hxb, hyb]
        · intro j hjx hjy hjb hjp
          have hjb' : j ≠ b := fun h => hjb (by rw [h])
          have hjp' : j ≠ p := fun h => hjp (by rw [h])
          simp [setChild, setParent, writeNode, hjx, hjy, hjb', hjp']
      | Right =>
        refine ⟨setChild (setParent (setChild (setParent (setParent (setChild
            h0 p Dir.Right (some y)) y (some p)) x (some y)) x Dir.Right
            (some b)) b (some x)) y Dir.Left (some x), ?_, ?_, ?_, ?_, ?_, ?_⟩
        · simp [rotate, getChild, setChild, setParent, writeNode, Dir.opposite,
                hxp, hxr, hyx, hxy, hbl, hxpne, hypne, hdk, hbx, hby, hbp, hxb, hyb, hpb]
        · simp [setChild, setParent, writeNode, hyx, hxy, hbl, hxpne, hypne,
                hbx, hby, hbp, hxb, hyb, hpb]
        · simp [setChild, setParent, writeNode, hyx, hxy, hxp, hxpne, hypne,
                hby, hbp, hyb, hpb]
        · intro b' hb'; injection hb' with hb'; subst hb'
          simp [setChild, setParent, writeNode, hbx, hby, hbp, hxb, hyb, hpb]
        · intro q hq; injection hq with hq; subst hq
          simp [setChild, setParent, writeNode, hxpne, hypne, hyx, hxy, hbp,
                hpx, hpy, hpb, hxb, hyb]
        · intro j hjx hjy hjb hjp
          have hjb' : j ≠ b := fun h => hjb (by rw [h])
          have hjp' : j ≠ p := fun h => hjp (by rw [h])
          simp [setChild, setParent, writeNode, hjx, hjy, hjb', hjp']

/-- Cell-level effect of `rotate(x, Right)` on a heap where `x`'s left child
is `y`: the rotation succeeds and performs exactly the expected writes. -/
lemma rotate_right_cells {h0 : Heap} {x y : Nat} {pa : Option Nat} {dk : Dir}
    (hxp : (h0 x).parent = pa) (hxr : (h0 x).left = some y)
    (hyx : y ≠ x)
    (hpa : ∀ p, pa = some p → x ≠ p ∧ y ≠ p ∧ get_dir h0 x = dk)
    (hob : ∀ b, (h0 y).right = some b → b ≠ x ∧ b ≠ y ∧ ∀ p, pa = some p → b ≠ p) :
    ∃ h', rotate h0 x Dir.Right = .ok h'
      ∧ h' x = { h0 x with parent := some y, left := (h0 y).right }
      ∧ h' y = { h0 y with parent := pa, right := some x }
      ∧ (∀ b, (h0 y).right = some b → h' b = { h0 b with parent := some x })
      ∧ (∀ p, pa = some p → h' p = (match dk with
            | Dir.Right => { h0 p with right := some y }
            | Dir.Left => { h0 p with left := some y }))
      ∧ (∀ j, j ≠ x → j ≠ y → (h0 y).right ≠ some j → pa ≠ some j → h' j = h0 j) := by
  have hxy : x ≠ y := fun h => hyx h.symm
  cases pa with
  | none =>
    cases hbl : (h0 y).right with
    | none =>
      refine ⟨setChild (setChild (setParent (setParent h0 y none) x (some y))
          x Dir.Left none) y Dir.Right (some x), ?_, ?_, ?_, ?_, ?_, ?_⟩
      · simp [rotate, getChild, setChild, setParent, writeNode, Dir.opposite,
              hxp, hxr, hyx, hxy, hbl]
      · simp [setChild, setParent, writeNode, hyx, hxy, hbl]
      · simp [setChild, setParent, writeNode, hyx, hxy, hxp]
      · intro b hb; cases hb
      · intro p hp; cases hp
      · intro j hjx hjy _ _
        simp [setChild, setParent, writeNode, hjx, hjy]
    | some b =>
      obtain ⟨hbx, hby, _⟩ := hob b hbl
      have hxb : x ≠ b := fun h => hbx h.symm
      have hyb : y ≠ b := fun h => hby h.symm
      refine ⟨setChild (setParent (setChild (setParent (setParent h0 y none)
          x (some y)) x Dir.Left (some b)) b (some x)) y Dir.Right (some x),
          ?_, ?_, ?_, ?_, ?_, ?_⟩
      · simp [rotate, getChild, setChild, setParent, writeNode, Dir.opposite,
              hxp, hxr, hyx, hxy, hbl, hbx, hby, hxb, hyb]
      · simp [setChild, setParent, writeNode, hyx, hxy, hbl, hbx, hby, hxb, hyb]
      · simp [setChild, setParent, writeNode, hyx, hxy, hxp, hby, hyb]
      · intro b' hb'; injection hb' with hb'; subst hb'
        simp [setChild, setParent, writeNode, hbx, hby, hxb, hyb]
      · intro p hp; cases hp
      · intro j hjx hjy hjb _
        have hjb' : j ≠ b := fun h => hjb (by rw [h])
        simp [setChild, setParent, writeNode, hjx, hjy, hjb']
  | some p =>
    obtain ⟨hxpne, hypne, hdk⟩ := hpa p rfl
    have hpx : p ≠ x := fun h => hxpne h.symm
    have hpy : p ≠ y := fun h => hypne h.symm
    cases hbl : (h0 y).right with
    | none =>
      cases dk with
      | Right =>
        refine ⟨setChild (setChild (setParent (setParent (setChild h0 p
            Dir.Right (some y)) y (some p)) x (some y)) x Dir.Left none)
            y Dir.Right (some x), ?_, ?_, ?_, ?_, ?_, ?_⟩
        · simp [rotate, getChild, setChild, setParent, writeNode, Dir.opposite,
                hxp, hxr, hyx, hxy, hbl, hxpne, hypne, hdk]
        · simp [setChild, setParent, writeNode, hyx, hxy, hbl, hxpne, hypne]
        · simp [setChild, setParent, writeNode, hyx, hxy, hxp, hxpne, hypne]
        · intro b hb; cases hb
        · intro q hq; injection hq with hq; subst hq
          simp [setChild, setParent, writeNode, hxpne, hypne, hyx, hxy, hpx, hpy]
        · intro j hjx hjy _ hjp
          have hjp' : j ≠ p := fun h => hjp (by rw [h])
          simp [setChild, setParent, writeNode, hjx, hjy, hjp']
      | Left =>
        refine ⟨setChild (setChild (setParent (setParent (setChild h0 p
            Dir.Left (some y)) y (some p)) x (some y)) x Dir.Left none)
            y Dir.Right (some x), ?_, ?_, ?_, ?_, ?_, ?_⟩
        · simp [rotate, getChild, setChild, setParent, writeNode, Dir.opposite,
                hxp, hxr, hyx, hxy, hbl, hxpne, hypne, hdk]
        · simp [setChild, setParent, writeNode, hyx, hxy, hbl, hxpne, hypne]
        · simp [setChild, setParent, writeNode, hyx, hxy, hxp, hxpne, hypne]
        · intro b hb; cases hb
        · intro q hq; injection hq with hq; subst hq
          simp [setChild, setParent, writeNode, hxpne, hypne, hyx, hxy, hpx, hpy]
        · intro j hjx hjy _ hjp
          have hjp' : j ≠ p := fun h => hjp (by rw [h])
          simp [setChild, setParent, writeNode, hjx, hjy, hjp']
    | some b =>
      obtain ⟨hbx, hby, hbp0⟩ := hob b hbl
      have hbp : b ≠ p := hbp0 p rfl
      have hpb : p ≠ b := fun h => hbp h.symm
      have hxb : x ≠ b := fun h => hbx h.symm
      have hyb : y ≠ b := fun h => hby h.symm
      cases dk with
      | Right =>
        refine ⟨setChild (setParent (setChild (setParent (setParent (setChild
            h0 p Dir.Right (some y)) y (some p)) x (some y)) x Dir.Left
            (some b)) b (some x)) y Dir.Right (some x), ?_, ?_, ?_, ?_, ?_, ?_⟩
        · simp [rotate, getChild, setChild, setParent, writeNode, Dir.opposite,
                hxp, hxr, hyx, hxy, hbl, hxpne, hypne, hdk, hbx, hby, hbp, hxb, hyb, hpb]
        · simp [setChild, setParent, writeNode, hyx, hxy, hbl, hxpne, hypne,
                hbx, hby, hbp, hxb, hyb, hpb]
        · simp [setChild, setParent, writeNode, hyx, hxy, hxp, hxpne, hypne,
                hby, hbp, hyb, hpb]
        · intro b' hb'; injection hb' with hb'; subst hb'
          simp [setChild, setParent, writeNode, hbx, hby, hbp, hxb, hyb, hpb]
        · intro q hq; injection hq with hq; subst hq
          simp [setChild, setParent, writeNode, hxpne, hypne, hyx, hxy, hbp,
                hpx, hpy, hpb, hxb, hyb]
        · intro j hjx hjy hjb hjp
          have hjb' : j ≠ b := fun h => hjb (by rw [h])
          have hjp' : j ≠ p := fun h => hjp (by rw [h])
          simp [setChild, setParent, writeNode, hjx, hjy, hjb', hjp']
      | Left =>
        refine ⟨setChild (setParent (setChild (setParent (setParent (setChild
            h0 p Dir.Left (some y)) y (some p)) x (some y)) x Dir.Left
            (some b)) b (some x)) y Dir.Right (some x), ?_, ?_, ?_, ?_, ?_, ?_⟩
        · simp [rotate, getChild, setChild, setParent, writeNode, Dir.opposite,
                hxp, hxr, hyx, hxy, hbl, hxpne, hypne, hdk, hbx, hby, hbp, hxb, hyb, hpb]
        · simp [setChild, setParent, writeNode, hyx, hxy, hbl, hxpne, hypne,
                hbx, hby, hbp, hxb, hyb, hpb]
        · simp [setChild, setParent, writeNode, hyx, hxy, hxp, hxpne, hypne,
                hby, hbp, hyb, hpb]
        · intro b' hb'; injection hb' with hb'; subst hb'
          simp [setChild, setParent, writeNode, hbx, hby, hbp, hxb, hyb, hpb]
        · intro q hq; injection hq with hq; subst hq
          simp [setChild, setParent, writeNode, hxpne, hypne, hyx, hxy, hbp,
                hpx, hpy, hpb, hxb, hyb]
        · intro j hjx hjy hjb hjp
          have hjb' : j ≠ b := fun h => hjb (by rw [h])
          have hjp' : j ≠ p := fun h => hjp (by rw [h])
          simp [setChild, setParent, writeNode, hjx, hjy, hjb', hjp']

end RBT

namespace RBT

/-- Direction of the hole inside its parent frame (`Left` by convention at
the top). -/
def dirOf : Ctx → Dir
  | .top => .Left
  | .cons _ _ d _ _ => d

lemma holeParent_mem {k : Ctx} {p : Nat} (h : holeParent k = some p) :
    p ∈ inordC k := by
  cases k with
  | top => cases h
  | cons q c d s k' => injection h with h; subst h; simp [inordC]

lemma nodup_expose {l1 l2 : List Nat} {a : Nat} (h : (l1 ++ a :: l2).Nodup) :
    a ∉ l1 ∧ a ∉ l2 ∧ l1.Nodup ∧ l2.Nodup ∧ ∀ j, j ∈ l1 → j ∉ l2 := by
  rw [List.nodup_append] at h
  obtain ⟨h1, h2, hd⟩ := h
  rw [List.nodup_cons] at h2
  exact ⟨fun ha => hd ha (by simp), fun ha => h2.1 ha, h1, h2.2,
         fun j hj hj2 => hd hj (by simp [hj2])⟩

lemma repC_get_dir {h : Heap} {k : Ctx} {x p : Nat}
    (hC : repC h k (some x)) (hxp : (h x).parent = holeParent k)
    (hp : holeParent k = some p)
    (hsep : ∀ j, j ∈ inordC k → j ≠ x) :
    get_dir h x = dirOf k := by
  cases k with
  | top => cases hp
  | cons q c d sib k' =>
    obtain ⟨_, _, hslot, _, _⟩ := hC
    cases d with
    | Left =>
      simp [get_dir, is_left, hxp, holeParent, dirOf, hslot.1]
    | Right =>
      cases hsl : rootOf sib with
      | none => simp [get_dir, is_left, hxp, holeParent, dirOf, hslot.2, hsl]
      | some s =>
        have hs : s ∈ inordC (Ctx.cons q c (Dir.Right) sib k') := by
          simp [inordC]
          exact Or.inr (Or.inl (rootOf_mem hsl))
        have hsx : s ≠ x := hsep s hs
        simp [get_dir, is_left, hxp, holeParent, dirOf, hslot.2, hsl, hsx]

end RBT

namespace RBT

/-- `rotate(x, Left)` on a represented tree succeeds and represents the
rotated tree: the pivot `y` takes `x`'s place (with `x`'s old parent,
`none` when `x` was the root), `x` becomes `y`'s left child and `y`'s old
left subtree becomes `x`'s right subtree. -/
lemma rotate_left_rep {h0 : Heap} {k : Ctx} {x : Nat} {cx : Color} {A : T}
    {y : Nat} {cy : Color} {B C : T}
    (hrep : rep h0 none (plug k (T.nd x cx A (T.nd y cy B C))))
    (hnd : (inord (plug k (T.nd x cx A (T.nd y cy B C)))).Nodup) :
    ∃ h', rotate h0 x Dir.Left = .ok h'
      ∧ rep h' none (plug k (T.nd y cy (T.nd x cx A B) C))
      ∧ (h' y).parent = holeParent k := by
  rw [rep_plug] at hrep
  obtain ⟨hC, hF⟩ := hrep
  obtain ⟨hxc, hxp, hxl, hxr, hA, hY⟩ := hF
  obtain ⟨hyc, hyp, hyl, hyr, hB, hCc⟩ := hY
  rw [show rootOf (T.nd y cy B C) = some y from rfl] at hxr
  have hnd2 : (inordC k ++ inord (T.nd x cx A (T.nd y cy B C))).Nodup :=
    ((inord_plug_perm k _).nodup_iff).mp hnd
  rw [List.nodup_append] at hnd2
  obtain ⟨hndK, hndF, hdisj⟩ := hnd2
  have hndF' : (inord A ++ x :: (inord B ++ y :: inord C)).Nodup := by
    simpa [inord] using hndF
  obtain ⟨hxA, hxBC, hndA, hndBC, hAd⟩ := nodup_expose hndF'
  obtain ⟨hyB, hyC, hndB, hndC, hBd⟩ := nodup_expose hndBC
  have hxy : x ≠ y := fun h => hxBC (by simp [h])
  have hxB : x ∉ inord B := fun h => hxBC (by simp [h])
  have hxC : x ∉ inord C := fun h => hxBC (by simp [h])
  have hyA : y ∉ inord A := fun h => hAd y h (by simp)
  have hK : ∀ j, j ∈ inordC k →
      j ≠ x ∧ j ≠ y ∧ j ∉ inord A ∧ j ∉ inord B ∧ j ∉ inord C := by
    intro j hj
    refine ⟨fun e => hdisj hj (by simp [inord, e]),
            fun e => hdisj hj (by simp [inord, e]),
            fun e => hdisj hj (by simp [inord, e]),
            fun e => hdisj hj (by simp [inord, e]),
            fun e => hdisj hj (by simp [inord, e])⟩
  have hsepx : ∀ j, j ∈ inordC k → j ≠ x := fun j hj => (hK j hj).1
  have hpa : ∀ p, holeParent k = some p →
      x ≠ p ∧ y ≠ p ∧ get_dir h0 x = dirOf k := by
    intro p hp
    have hpK := holeParent_mem hp
    exact ⟨((hK p hpK).1).symm, ((hK p hpK).2.1).symm,
           repC_get_dir hC hxp hp hsepx⟩
  have hob : ∀ b, (h0 y).left = some b →
      b ≠ x ∧ b ≠ y ∧ ∀ p, holeParent k = some p → b ≠ p := by
    intro b hb
    rw [hyl] at hb
    have hbB : b ∈ inord B := rootOf_mem hb
    refine ⟨fun e => hxB (e ▸ hbB), fun e => hyB (e ▸ hbB), ?_⟩
    intro p hp e
    exact (hK p (holeParent_mem hp)).2.2.2.1 (e ▸ hbB)
  have hyx : y ≠ x := fun h => hxy h.symm
  obtain ⟨h', hrot, hcx, hcy, hcb, hcp, hco⟩ :=
    rotate_left_cells hxp hxr hyx hpa hob
  have hcyp : (h' y).parent = holeParent k := by rw [hcy]
  refine ⟨h', hrot, ?_, hcyp⟩
  rw [rep_plug]
  constructor
  · -- the context still represents, with the hole now holding y
    cases k with
    | top => trivial
    | cons p pc dkk sib k' =>
      obtain ⟨hpc, hpp, hslot, hsib, hC'⟩ := hC
      have hcpp := hcp p rfl
      have hndK' : p ∉ inord sib ++ inordC k'
          ∧ (inord sib ++ inordC k').Nodup := by
        rw [show inordC (Ctx.cons p pc dkk sib k')
              = p :: (inord sib ++ inordC k') from rfl,
            List.nodup_cons] at hndK
        exact hndK
      have hframe : ∀ j, j ∈ inord sib ++ inordC k' → h' j = h0 j := by
        intro j hj
        have hjK : j ∈ inordC (Ctx.cons p pc dkk sib k') := by
          rw [show inordC (Ctx.cons p pc dkk sib k')
                = p :: (inord sib ++ inordC k') from rfl]
          exact List.mem_cons_of_mem _ hj
        refine hco j ((hK j hjK).1) ((hK j hjK).2.1) ?_ ?_
        · rw [hyl]
          intro e
          exact (hK j hjK).2.2.2.1 (rootOf_mem e)
        · intro e
          injection e with e
          exact hndK'.1 (e ▸ hj)
      refine ⟨?_, ?_, ?_, ?_, ?_⟩
      · cases dkk <;> simp [hcpp, hpc, dirOf, rootOf]
      · cases dkk <;> simp [hcpp, hpp, dirOf, rootOf]
      · cases dkk with
        | Left => exact ⟨by simp [hcpp, dirOf, rootOf],
                         by simp [hcpp, dirOf, hslot.2]⟩
        | Right => exact ⟨by simp [hcpp, dirOf, rootOf],
                          by simp [hcpp, dirOf, hslot.2]⟩
      · exact rep_frame hsib
          (fun j hj => hframe j (List.mem_append_left _ hj))
      · exact repC_frame hC'
          (fun j hj => hframe j (List.mem_append_right _ hj))
  · -- the rotated focus is represented under x's old parent
    have hframeA : rep h' (some x) A := by
      refine rep_frame hA ?_
      intro j hj
      refine hco j (fun e => hxA (e ▸ hj)) (fun e => hyA (e ▸ hj)) ?_ ?_
      · rw [hyl]
        intro e
        exact hAd j hj (by simp [rootOf_mem e])
      · intro e
        exact (hK j (holeParent_mem e)).2.2.1 hj
    have hframeC : rep h' (some y) C := by
      refine rep_frame hCc ?_
      intro j hj
      refine hco j (fun e => hxC (e ▸ hj)) (fun e => hyC (e ▸ hj)) ?_ ?_
      · rw [hyl]
        intro e
        exact hBd j (rootOf_mem e) hj
      · intro e
        exact (hK j (holeParent_mem e)).2.2.2.2 hj
    have hrepB : rep h' (some x) B := by
      cases B with
      | nil => trivial
      | nd b cb Bl Br =>
        obtain ⟨hbc, hbp, hbl2, hbr2, hBl, hBr⟩ := hB
        have hcbb := hcb b (by rw [hyl]; rfl)
        obtain ⟨hbBl, hbBr, hndBl, hndBr, hBlr⟩ := nodup_expose
          (by simpa [inord] using hndB)
        have hframeSub : ∀ j, j ∈ inord Bl ∨ j ∈ inord Br → h' j = h0 j := by
          intro j hj
          have hjB : j ∈ inord (T.nd b cb Bl Br) := by
            rcases hj with hj | hj <;> simp [inord, hj]
          have hjb : j ≠ b := by
            rcases hj with hj | hj
            · exact fun e => hbBl (e ▸ hj)
            · exact fun e => hbBr (e ▸ hj)
          refine hco j (fun e => hxB (e ▸ hjB)) (fun e => hyB (e ▸ hjB)) ?_ ?_
          · rw [hyl, show rootOf (T.nd b cb Bl Br) = some b from rfl]
            intro e
            injection e with e
            exact hjb e.symm
          · intro e
            exact (hK j (holeParent_mem e)).2.2.2.1 hjB
        exact ⟨by simp [hcbb, hbc], by simp [hcbb], by simp [hcbb, hbl2],
               by simp [hcbb, hbr2],
               rep_frame hBl (fun j hj => hframeSub j (Or.inl hj)),
               rep_frame hBr (fun j hj => hframeSub j (Or.inr hj))⟩
    refine ⟨by simp [hcy, hyc], by simp [hcy], by simp [hcy, rootOf],
            by simp [hcy, hyr], ?_, hframeC⟩
    exact ⟨by simp [hcx, hxc], by simp [hcx], by simp [hcx, hxl],
           by simp [hcx, hyl], hframeA, hrepB⟩

end RBT

namespace RBT

/-- `rotate(x, Right)` on a represented tree succeeds and represents the
rotated tree: the pivot `y` (the left child) takes `x`'s place, `x`
becomes `y`'s right child and `y`'s old right subtree becomes `x`'s left
subtree. -/
lemma rotate_right_rep {h0 : Heap} {k : Ctx} {x : Nat} {cx : Color} {A : T}
    {y : Nat} {cy : Color} {B C : T}
    (hrep : rep h0 none (plug k (T.nd x cx (T.nd y cy C B) A)))
    (hnd : (inord (plug k (T.nd x cx (T.nd y cy C B) A))).Nodup) :
    ∃ h', rotate h0 x Dir.Right = .ok h'
      ∧ rep h' none (plug k (T.nd y cy C (T.nd x cx B A)))
      ∧ (h' y).parent = holeParent k := by
  rw [rep_plug] at hrep
  obtain ⟨hC, hF⟩ := hrep
  obtain ⟨hxc, hxp, hxl, hxr, hY, hA⟩ := hF
  obtain ⟨hyc, hyp, hyl, hyr, hCc, hB⟩ := hY
  rw [show rootOf (T.nd y cy C B) = some y from rfl] at hxl
  have hnd2 : (inordC k ++ inord (T.nd x cx (T.nd y cy C B) A)).Nodup :=
    ((inord_plug_perm k _).nodup_iff).mp hnd
  rw [List.nodup_append] at hnd2
  obtain ⟨hndK, hndF, hdisj⟩ := hnd2
  have hndF' : (inord C ++ y :: (inord B ++ x :: inord A)).Nodup := by
    simpa [inord] using hndF
  obtain ⟨hyC, hyBA, hndC, hndBA, hCd⟩ := nodup_expose hndF'
  obtain ⟨hxB, hxA, hndB, hndA, hBd⟩ := nodup_expose hndBA
  have hyx : y ≠ x := fun h => hyBA (by simp [h])
  have hyB : y ∉ inord B := fun h => hyBA (by simp [h])
  have hyA : y ∉ inord A := fun h => hyBA (by simp [h])
  have hxy : x ≠ y := fun h => hyx h.symm
  have hxC : x ∉ inord C := fun h => hCd x h (by simp)
  have hK : ∀ j, j ∈ inordC k →
      j ≠ x ∧ j ≠ y ∧ j ∉ inord A ∧ j ∉ inord B ∧ j ∉ inord C := by
    intro j hj
    refine ⟨fun e => hdisj hj (by simp [inord, e]),
            fun e => hdisj hj (by simp [inord, e]),
            fun e => hdisj hj (by simp [inord, e]),
            fun e => hdisj hj (by simp [inord, e]),
            fun e => hdisj hj (by simp [inord, e])⟩
  have hsepx : ∀ j, j ∈ inordC k → j ≠ x := fun j hj => (hK j hj).1
  have hpa : ∀ p, holeParent k = some p →
      x ≠ p ∧ y ≠ p ∧ get_dir h0 x = dirOf k := by
    intro p hp
    have hpK := holeParent_mem hp
    exact ⟨((hK p hpK).1).symm, ((hK p hpK).2.1).symm,
           repC_get_dir hC hxp hp hsepx⟩
  have hob : ∀ b, (h0 y).right = some b →
      b ≠ x ∧ b ≠ y ∧ ∀ p, holeParent k = some p → b ≠ p := by
    intro b hb
    rw [hyr] at hb
    have hbB : b ∈ inord B := rootOf_mem hb
    refine ⟨fun e => hxB (e ▸ hbB), fun e => hyB (e ▸ hbB), ?_⟩
    intro p hp e
    exact (hK p (holeParent_mem hp)).2.2.2.1 (e ▸ hbB)
  obtain ⟨h', hrot, hcx, hcy, hcb, hcp, hco⟩ :=
    rotate_right_cells hxp hxl hyx hpa hob
  have hcyp : (h' y).parent = holeParent k := by rw [hcy]
  refine ⟨h', hrot, ?_, hcyp⟩
  rw [rep_plug]
  constructor
  · cases k with
    | top => trivial
    | cons p pc dkk sib k' =>
      obtain ⟨hpc, hpp, hslot, hsib, hC'⟩ := hC
      have hcpp := hcp p rfl
      have hndK' : p ∉ inord sib ++ inordC k'
          ∧ (inord sib ++ inordC k').Nodup := by
        rw [show inordC (Ctx.cons p pc dkk sib k')
              = p :: (inord sib ++ inordC k') from rfl,
            List.nodup_cons] at hndK
        exact hndK
      have hframe : ∀ j, j ∈ inord sib ++ inordC k' → h' j = h0 j := by
        intro j hj
        have hjK : j ∈ inordC (Ctx.cons p pc dkk sib k') := by
          rw [show inordC (Ctx.cons p pc dkk sib k')
                = p :: (inord sib ++ inordC k') from rfl]
          exact List.mem_cons_of_mem _ hj
        refine hco j ((hK j hjK).1) ((hK j hjK).2.1) ?_ ?_
        · rw [hyr]
          intro e
          exact (hK j hjK).2.2.2.1 (rootOf_mem e)
        · intro e
          injection e with e
          exact hndK'.1 (e ▸ hj)
      refine ⟨?_, ?_, ?_, ?_, ?_⟩
      · cases dkk <;> simp [hcpp, hpc, dirOf, rootOf]
      · cases dkk <;> simp [hcpp, hpp, dirOf, rootOf]
      · cases dkk with
        | Left => exact ⟨by simp [hcpp, dirOf, rootOf],
                         by simp [hcpp, dirOf, hslot.2]⟩
        | Right => exact ⟨by simp [hcpp, dirOf, rootOf],
                          by simp [hcpp, dirOf, hslot.2]⟩
      · exact rep_frame hsib
          (fun j hj => hframe j (List.mem_append_left _ hj))
      · exact repC_frame hC'
          (fun j hj => hframe j (List.mem_append_right _ hj))
  · have hframeA : rep h' (some x) A := by
      refine rep_frame hA ?_
      intro j hj
      refine hco j (fun e => hxA (e ▸ hj)) (fun e => hyA (e ▸ hj)) ?_ ?_
      · rw [hyr]
        intro e
        exact hBd j (rootOf_mem e) hj
      · intro e
        exact (hK j (holeParent_mem e)).2.2.1 hj
    have hframeC : rep h' (some y) C := by
      refine rep_frame hCc ?_
      intro j hj
      refine hco j (fun e => hxC (e ▸ hj)) (fun e => hyC (e ▸ hj)) ?_ ?_
      · rw [hyr]
        intro e
        exact hCd j hj (by simp [rootOf_mem e])
      · intro e
        exact (hK j (holeParent_mem e)).2.2.2.2 hj
    have hrepB : rep h' (some x) B := by
      cases B with
      | nil => trivial
      | nd b cb Bl Br =>
        obtain ⟨hbc, hbp, hbl2, hbr2, hBl, hBr⟩ := hB
        have hcbb := hcb b (by rw [hyr]; rfl)
        obtain ⟨hbBl, hbBr, hndBl, hndBr, hBlr⟩ := nodup_expose
          (by simpa [inord] using hndB)
        have hframeSub : ∀ j, j ∈ inord Bl ∨ j ∈ inord Br → h' j = h0 j := by
          intro j hj
          have hjB : j ∈ inord (T.nd b cb Bl Br) := by
            rcases hj with hj | hj <;> simp [inord, hj]
          have hjb : j ≠ b := by
            rcases hj with hj | hj
            · exact fun e => hbBl (e ▸ hj)
            · exact fun e => hbBr (e ▸ hj)
          refine hco j (fun e => hxB (e ▸ hjB)) (fun e => hyB (e ▸ hjB)) ?_ ?_
          · rw [hyr, show rootOf (T.nd b cb Bl Br) = some b from rfl]
            intro e
            injection e with e
            exact hjb e.symm
          · intro e
            exact (hK j (holeParent_mem e)).2.2.2.1 hjB
        exact ⟨by simp [hcbb, hbc], by simp [hcbb], by simp [hcbb, hbl2],
               by simp [hcbb, hbr2],
               rep_frame hBl (fun j hj => hframeSub j (Or.inl hj)),
               rep_frame hBr (fun j hj => hframeSub j (Or.inr hj))⟩
    refine ⟨by simp [hcy, hyc], by simp [hcy], by simp [hcy, hyl],
            by simp [hcy, rootOf], hframeC, ?_⟩
    exact ⟨by simp [hcx, hxc], by simp [hcx], by simp [hcx, hyr],
           by simp [hcx, hxr], hrepB, hframeA⟩

end RBT

namespace RBT

/-- Nest a context inside another (the hole of the result is the hole of
the first). -/
def Ctx.append : Ctx → Ctx → Ctx
  | .top, k2 => k2
  | .cons p c d s k, k2 => .cons p c d s (Ctx.append k k2)

lemma plug_append : ∀ (k1 k2 : Ctx) (t : T),
    plug (Ctx.append k1 k2) t = plug k2 (plug k1 t) := by
  intro k1
  induction k1 with
  | top => intro k2 t; rfl
  | cons p c d s k ih =>
    intro k2 t
    cases d with
    | Left => exact ih k2 (T.nd p c t s)
    | Right => exact ih k2 (T.nd p c s t)

/-- Every node of a tree is the focus of some context decomposition. -/
lemma inord_decomp : ∀ {t : T} {x : Nat}, x ∈ inord t →
    ∃ k c l r, plug k (T.nd x c l r) = t := by
  intro t
  induction t with
  | nil => intro x hx; simp [inord] at hx
  | nd i c l r ihl ihr =>
    intro x hx
    rw [inord, List.mem_append, List.mem_cons] at hx
    rcases hx with hx | hx | hx
    · obtain ⟨k, c', l', r', hk⟩ := ihl hx
      refine ⟨Ctx.append k (.cons i c .Left r .top), c', l', r', ?_⟩
      rw [plug_append]
      simp [plug, hk]
    · subst hx
      exact ⟨.top, c, l, r, rfl⟩
    · obtain ⟨k, c', l', r', hk⟩ := ihr hx
      refine ⟨Ctx.append k (.cons i c .Right l .top), c', l', r', ?_⟩
      rw [plug_append]
      simp [plug, hk]

lemma mem_inord_plug {i : Nat} {f : T} (k : Ctx) (h : i ∈ inord f) :
    i ∈ inord (plug k f) := by
  rw [(inord_plug_perm k f).mem_iff]
  exact List.mem_append_right _ h

lemma setColor_parent (h : Heap) (i : Nat) (c : Color) (j : Nat) :
    ((setColor h i c) j).parent = (h j).parent := by
  by_cases hj : j = i <;> simp [setColor, writeNode, hj]

lemma setColor_left (h : Heap) (i : Nat) (c : Color) (j : Nat) :
    ((setColor h i c) j).left = (h j).left := by
  by_cases hj : j = i <;> simp [setColor, writeNode, hj]

lemma setColor_right (h : Heap) (i : Nat) (c : Color) (j : Nat) :
    ((setColor h i c) j).right = (h j).right := by
  by_cases hj : j = i <;> simp [setColor, writeNode, hj]

lemma setColor_other (h : Heap) (i : Nat) (c : Color) (j : Nat) (hj : j ≠ i) :
    (setColor h i c) j = h j := by
  simp [setColor, writeNode, hj]

lemma setColor_self (h : Heap) (i : Nat) (c : Color) :
    (setColor h i c) i = { h i with color := c } := by
  simp [setColor, writeNode]

lemma get_dir_setColor (h : Heap) (i : Nat) (c : Color) (x : Nat) :
    get_dir (setColor h i c) x = get_dir h x := by
  unfold get_dir is_left
  rw [setColor_parent]
  cases (h x).parent with
  | none => rfl
  | some p => simp [setColor_left]

lemma is_root_setColor (h : Heap) (i : Nat) (c : Color) (x : Nat) :
    is_root (setColor h i c) x = is_root h x := by
  unfold is_root
  rw [setColor_parent]

end RBT

namespace RBT

/-- The black-uncle branch of `insert_fixup_step` (triangle and line cases):
it rotates (after recoloring, in the line case) and preserves the in-order
sequence; the node it continues at, if any, stays in the tree. -/
lemma insert_black_uncle {h : Heap} {x p g : Nat} {c pc gc : Color}
    {d dg : Dir} {l r sib sibg : T} {k'' : Ctx} {h' : Heap} {nxt : Option Nat}
    (hrep : rep h none (plug (Ctx.cons p pc d sib
        (Ctx.cons g gc dg sibg k'')) (T.nd x c l r)))
    (hnd : (inord (plug (Ctx.cons p pc d sib
        (Ctx.cons g gc dg sibg k'')) (T.nd x c l r))).Nodup)
    (heq : (if dg ≠ d then
              match rotate h p d.opposite with
              | Res.ok h1 => Res.ok (h1, some p)
              | Res.ub => (Res.ub : Res (Heap × Option Nat))
              | Res.oof => Res.oof
            else
              match rotate (setColor (setColor h p Color.Black) g Color.Red)
                  g d.opposite with
              | Res.ok h3 => Res.ok (h3, none)
              | Res.ub => (Res.ub : Res (Heap × Option Nat))
              | Res.oof => Res.oof) = Res.ok (h', nxt)) :
    ∃ t', rep h' none t'
      ∧ inord t' = inord (plug (Ctx.cons p pc d sib
          (Ctx.cons g gc dg sibg k'')) (T.nd x c l r))
      ∧ ∀ y, nxt = some y → y ∈ inord t' := by
  -- distinctness facts shared by all cases
  have hnd' : (inordC (Ctx.cons p pc d sib (Ctx.cons g gc dg sibg k''))
      ++ inord (T.nd x c l r)).Nodup :=
    ((inord_plug_perm _ _).nodup_iff).mp hnd
  rw [List.nodup_append] at hnd'
  obtain ⟨hndK, hndF, hdisjKF⟩ := hnd'
  rw [show inordC (Ctx.cons p pc d sib (Ctx.cons g gc dg sibg k''))
        = p :: (inord sib ++ (g :: (inord sibg ++ inordC k''))) from by
      simp [inordC], List.nodup_cons] at hndK
  obtain ⟨hpNotIn, hndK2⟩ := hndK
  rw [List.nodup_append] at hndK2
  obtain ⟨hndsib, hndK3, hdisjsib⟩ := hndK2
  rw [List.nodup_cons] at hndK3
  obtain ⟨hgNotIn, hndK4⟩ := hndK3
  rw [List.nodup_append] at hndK4
  obtain ⟨hndsibg, hndk2, hdisjsibg⟩ := hndK4
  have hpg : p ≠ g := fun e => hpNotIn (by simp [e])
  have hgp : g ≠ p := fun e => hpg e.symm
  have hKmem : ∀ j, j ∈ inordC (Ctx.cons p pc d sib
      (Ctx.cons g gc dg sibg k'')) ↔
      (j = p ∨ j ∈ inord sib ∨ j = g ∨ j ∈ inord sibg ∨ j ∈ inordC k'') := by
    intro j
    simp [inordC]
  have hsibp : ∀ j, j ∈ inord sib → j ≠ p ∧ j ≠ g := by
    intro j hj
    exact ⟨fun e => hpNotIn (by simp [e ▸ hj]),
           fun e => hdisjsib hj (by simp [e])⟩
  have hsibgp : ∀ j, j ∈ inord sibg → j ≠ p ∧ j ≠ g := by
    intro j hj
    exact ⟨fun e => hpNotIn (by simp [e ▸ hj]),
           fun e => hgNotIn (by simp [e ▸ hj])⟩
  have hk2p : ∀ j, j ∈ inordC k'' → j ≠ p ∧ j ≠ g := by
    intro j hj
    exact ⟨fun e => hpNotIn (by simp [e ▸ hj]),
           fun e => hgNotIn (by simp [e ▸ hj])⟩
  have hFp : ∀ j, j ∈ inord (T.nd x c l r) → j ≠ p ∧ j ≠ g := by
    intro j hj
    constructor
    · intro e
      exact hdisjKF ((hKmem p).mpr (Or.inl rfl)) (e ▸ hj)
    · intro e
      exact hdisjKF ((hKmem g).mpr (Or.inr (Or.inr (Or.inl rfl)))) (e ▸ hj)
  -- unpack the representation
  have hrep' := hrep
  rw [rep_plug] at hrep'
  obtain ⟨hCfull, hF⟩ := hrep'
  obtain ⟨hpc2, hpp, hslot, hsib, hC'⟩ := hCfull
  obtain ⟨hgc2, hgp2, hgslot, hsibg, hC''⟩ := hC'
  cases d with
  | Left =>
    cases dg with
    | Right =>
      -- triangle: rotate right at p, x rises
      rw [if_pos (by simp)] at heq
      obtain ⟨h1, hrot1, hrep1, _⟩ := rotate_right_rep
        (k := Ctx.cons g gc Dir.Right sibg k'') (x := p) (y := x) (C := l) (B := r) (A := sib) hrep hnd
      rw [show Dir.opposite Dir.Left = Dir.Right from rfl, hrot1] at heq
      rw [show (match Res.ok h1 with
            | Res.ok h1 => Res.ok (h1, some p)
            | Res.ub => (Res.ub : Res (Heap × Option Nat))
            | Res.oof => Res.oof) = Res.ok (h1, some p) from rfl] at heq
      injection heq with heq
      injection heq with heq1 heq2
      subst heq1
      subst heq2
      refine ⟨plug (Ctx.cons g gc Dir.Right sibg k'')
          (T.nd x c l (T.nd p pc r sib)), hrep1, ?_, ?_⟩
      · exact inord_plug_congr (by simp [inord]) _
      · intro y hy
        injection hy with hy
        subst hy
        exact mem_inord_plug _ (by simp [inord])
    | Left =>
      -- line: recolor p black, g red, rotate right at g
      rw [if_neg (by simp)] at heq
      set h2 := setColor (setColor h p Color.Black) g Color.Red with hh2
      have hother : ∀ j, j ≠ p → j ≠ g → h2 j = h j := by
        intro j hjp hjg
        rw [hh2, setColor_other _ _ _ _ hjg, setColor_other _ _ _ _ hjp]
      have hrep2 : rep h2 none (plug (Ctx.cons p Color.Black Dir.Left sib
          (Ctx.cons g Color.Red Dir.Left sibg k'')) (T.nd x c l r)) := by
        rw [rep_plug]
        refine ⟨⟨?_, ?_, ⟨?_, ?_⟩, ?_, ?_, ?_, ⟨?_, ?_⟩, ?_, ?_⟩, ?_⟩
        · rw [hh2, setColor_other _ _ _ _ hpg, setColor_self]
        · rw [hh2, setColor_parent, setColor_parent]
          exact hpp
        · rw [hh2, setColor_left, setColor_left]
          exact hslot.1
        · rw [hh2, setColor_right, setColor_right]
          exact hslot.2
        · exact rep_frame hsib (fun j hj =>
            hother j (hsibp j hj).1 (hsibp j hj).2)
        · rw [hh2, setColor_self]
        · rw [hh2, setColor_parent, setColor_parent]
          exact hgp2
        · rw [hh2, setColor_left, setColor_left]
          exact hgslot.1
        · rw [hh2, setColor_right, setColor_right]
          exact hgslot.2
        · exact rep_frame hsibg (fun j hj =>
            hother j (hsibgp j hj).1 (hsibgp j hj).2)
        · exact repC_frame hC'' (fun j hj =>
            hother j (hk2p j hj).1 (hk2p j hj).2)
        · exact rep_frame hF (fun j hj =>
            hother j (hFp j hj).1 (hFp j hj).2)
      have hnd2 : (inord (plug (Ctx.cons p Color.Black Dir.Left sib
          (Ctx.cons g Color.Red Dir.Left sibg k'')) (T.nd x c l r))).Nodup := by
        have he : inord (plug (Ctx.cons p Color.Black Dir.Left sib
              (Ctx.cons g Color.Red Dir.Left sibg k'')) (T.nd x c l r))
            = inord (plug (Ctx.cons p pc Dir.Left sib
              (Ctx.cons g gc Dir.Left sibg k'')) (T.nd x c l r)) :=
          inord_plug_congr (by simp [inord]) k''
        rw [he]
        exact hnd
      obtain ⟨h3, hrot3, hrep3, _⟩ := rotate_right_rep
        (k := k'') (x := g) (y := p) (C := T.nd x c l r) (B := sib) (A := sibg) hrep2 hnd2
      rw [show Dir.opposite Dir.Left = Dir.Right from rfl, hrot3] at heq
      rw [show (match Res.ok h3 with
            | Res.ok h3 => Res.ok (h3, none)
            | Res.ub => (Res.ub : Res (Heap × Option Nat))
            | Res.oof => Res.oof) = Res.ok (h3, none) from rfl] at heq
      injection heq with heq
      injection heq with heq1 heq2
      subst heq1
      subst heq2
      refine ⟨plug k'' (T.nd p Color.Black (T.nd x c l r)
          (T.nd g Color.Red sib sibg)), hrep3, ?_, ?_⟩
      · exact inord_plug_congr (by simp [inord]) _
      · intro y hy
        cases hy
  | Right =>
    cases dg with
    | Left =>
      -- triangle: rotate left at p, x rises
      rw [if_pos (by simp)] at heq
      obtain ⟨h1, hrot1, hrep1, _⟩ := rotate_left_rep
        (k := Ctx.cons g gc Dir.Left sibg k'') (x := p) (A := sib) (y := x) (B := l) (C := r) hrep hnd
      rw [show Dir.opposite Dir.Right = Dir.Left from rfl, hrot1] at heq
      rw [show (match Res.ok h1 with
            | Res.ok h1 => Res.ok (h1, some p)
            | Res.ub => (Res.ub : Res (Heap × Option Nat))
            | Res.oof => Res.oof) = Res.ok (h1, some p) from rfl] at heq
      injection heq with heq
      injection heq with heq1 heq2
      subst heq1
      subst heq2
      refine ⟨plug (Ctx.cons g gc Dir.Left sibg k'')
          (T.nd x c (T.nd p pc sib l) r), hrep1, ?_, ?_⟩
      · exact inord_plug_congr (by simp [inord]) _
      · intro y hy
        injection hy with hy
        subst hy
        exact mem_inord_plug _ (by simp [inord])
    | Right =>
      -- line: recolor p black, g red, rotate left at g
      rw [if_neg (by simp)] at heq
      set h2 := setColor (setColor h p Color.Black) g Color.Red with hh2
      have hother : ∀ j, j ≠ p → j ≠ g → h2 j = h j := by
        intro j hjp hjg
        rw [hh2, setColor_other _ _ _ _ hjg, setColor_other _ _ _ _ hjp]
      have hrep2 : rep h2 none (plug (Ctx.cons p Color.Black Dir.Right sib
          (Ctx.cons g Color.Red Dir.Right sibg k'')) (T.nd x c l r)) := by
        rw [rep_plug]
        refine ⟨⟨?_, ?_, ⟨?_, ?_⟩, ?_, ?_, ?_, ⟨?_, ?_⟩, ?_, ?_⟩, ?_⟩
        · rw [hh2, setColor_other _ _ _ _ hpg, setColor_self]
        · rw [hh2, setColor_parent, setColor_parent]
          exact hpp
        · rw [hh2, setColor_right, setColor_right]
          exact hslot.1
        · rw [hh2, setColor_left, setColor_left]
          exact hslot.2
        · exact rep_frame hsib (fun j hj =>
            hother j (hsibp j hj).1 (hsibp j hj).2)
        · rw [hh2, setColor_self]
        · rw [hh2, setColor_parent, setColor_parent]
          exact hgp2
        · rw [hh2, setColor_right, setColor_right]
          exact hgslot.1
        · rw [hh2, setColor_left, setColor_left]
          exact hgslot.2
        · exact rep_frame hsibg (fun j hj =>
            hother j (hsibgp j hj).1 (hsibgp j hj).2)
        · exact repC_frame hC'' (fun j hj =>
            hother j (hk2p j hj).1 (hk2p j hj).2)
        · exact rep_frame hF (fun j hj =>
            hother j (hFp j hj).1 (hFp j hj).2)
      have hnd2 : (inord (plug (Ctx.cons p Color.Black Dir.Right sib
          (Ctx.cons g Color.Red Dir.Right sibg k'')) (T.nd x c l r))).Nodup := by
        have he : inord (plug (Ctx.cons p Color.Black Dir.Right sib
              (Ctx.cons g Color.Red Dir.Right sibg k'')) (T.nd x c l r))
            = inord (plug (Ctx.cons p pc Dir.Right sib
              (Ctx.cons g gc Dir.Right sibg k'')) (T.nd x c l r)) :=
          inord_plug_congr (by simp [inord]) k''
        rw [he]
        exact hnd
      obtain ⟨h3, hrot3, hrep3, _⟩ := rotate_left_rep
        (k := k'') (x := g) (A := sibg) (y := p)
        (B := sib) (C := T.nd x c l r) hrep2 hnd2
      rw [show Dir.opposite Dir.Right = Dir.Left from rfl, hrot3] at heq
      rw [show (match Res.ok h3 with
            | Res.ok h3 => Res.ok (h3, none)
            | Res.ub => (Res.ub : Res (Heap × Option Nat))
            | Res.oof => Res.oof) = Res.ok (h3, none) from rfl] at heq
      injection heq with heq
      injection heq with heq1 heq2
      subst heq1
      subst heq2
      refine ⟨plug k'' (T.nd p Color.Black (T.nd g Color.Red sibg sib)
          (T.nd x c l r)), hrep3, ?_, ?_⟩
      · exact inord_plug_congr (by simp [inord]) _
      · intro y hy
        cases hy

end RBT

namespace RBT

/-- The red-uncle branch of `insert_fixup_step`: recoloring the parent and
uncle black and the grandparent red preserves the represented shape, hence
the in-order sequence, and the grandparent stays in the tree. -/
lemma insert_red_uncle {h : Heap} {x p g u : Nat} {c pc gc cu : Color}
    {d dg : Dir} {l r sib ul ur : T} {k'' : Ctx}
    (hrep : rep h none (plug (Ctx.cons p pc d sib
        (Ctx.cons g gc dg (T.nd u cu ul ur) k'')) (T.nd x c l r)))
    (hnd : (inord (plug (Ctx.cons p pc d sib
        (Ctx.cons g gc dg (T.nd u cu ul ur) k'')) (T.nd x c l r))).Nodup) :
    ∃ t', rep (setColor (setColor (setColor h u Color.Black) p Color.Black)
          g Color.Red) none t'
      ∧ inord t' = inord (plug (Ctx.cons p pc d sib
          (Ctx.cons g gc dg (T.nd u cu ul ur) k'')) (T.nd x c l r))
      ∧ g ∈ inord t' := by
  have hnd' : (inordC (Ctx.cons p pc d sib
      (Ctx.cons g gc dg (T.nd u cu ul ur) k''))
      ++ inord (T.nd x c l r)).Nodup :=
    ((inord_plug_perm _ _).nodup_iff).mp hnd
  rw [List.nodup_append] at hnd'
  obtain ⟨hndK, hndF, hdisjKF⟩ := hnd'
  rw [show inordC (Ctx.cons p pc d sib
        (Ctx.cons g gc dg (T.nd u cu ul ur) k''))
        = p :: (inord sib ++ (g :: (inord (T.nd u cu ul ur)
          ++ inordC k''))) from by simp [inordC], List.nodup_cons] at hndK
  obtain ⟨hpNotIn, hndK2⟩ := hndK
  rw [List.nodup_append] at hndK2
  obtain ⟨hndsib, hndK3, hdisjsib⟩ := hndK2
  rw [List.nodup_cons] at hndK3
  obtain ⟨hgNotIn, hndK4⟩ := hndK3
  rw [List.nodup_append] at hndK4
  obtain ⟨hndsibg, hndk2, hdisjsibg⟩ := hndK4
  have hpg : p ≠ g := fun e => hpNotIn (by simp [e])
  have hgu : g ≠ u := fun e => hgNotIn (by simp [inord, e])
  have hpu : p ≠ u := fun e => hpNotIn (by simp [inord, e])
  have hKmem : ∀ j, j ∈ inordC (Ctx.cons p pc d sib
      (Ctx.cons g gc dg (T.nd u cu ul ur) k'')) ↔
      (j = p ∨ j ∈ inord sib ∨ j = g ∨ j ∈ inord (T.nd u cu ul ur)
        ∨ j ∈ inordC k'') := by
    intro j
    simp [inordC]
  set h3 := setColor (setColor (setColor h u Color.Black) p Color.Black)
      g Color.Red with hh3
  have hother : ∀ j, j ≠ u → j ≠ p → j ≠ g → h3 j = h j := by
    intro j hju hjp hjg
    rw [hh3, setColor_other _ _ _ _ hjg, setColor_other _ _ _ _ hjp,
        setColor_other _ _ _ _ hju]
  have hsibo : ∀ j, j ∈ inord sib → h3 j = h j := by
    intro j hj
    refine hother j ?_ ?_ ?_
    · exact fun e => hdisjsib hj (by simp [inord, e])
    · exact fun e => hpNotIn (by simp [e ▸ hj])
    · exact fun e => hdisjsib hj (by simp [e])
  have hFo : ∀ j, j ∈ inord (T.nd x c l r) → h3 j = h j := by
    intro j hj
    refine hother j ?_ ?_ ?_
    · intro e
      exact hdisjKF ((hKmem u).mpr (Or.inr (Or.inr (Or.inr (Or.inl
        (by simp [inord])))))) (e ▸ hj)
    · intro e
      exact hdisjKF ((hKmem p).mpr (Or.inl rfl)) (e ▸ hj)
    · intro e
      exact hdisjKF ((hKmem g).mpr (Or.inr (Or.inr (Or.inl rfl)))) (e ▸ hj)
  have hk2o : ∀ j, j ∈ inordC k'' → h3 j = h j := by
    intro j hj
    refine hother j ?_ ?_ ?_
    · exact fun e => hdisjsibg (by simp [inord]) (e ▸ hj)
    · exact fun e => hpNotIn (by simp [e ▸ hj])
    · exact fun e => hgNotIn (by simp [e ▸ hj])
  -- unpack the representation
  rw [rep_plug] at hrep
  obtain ⟨hCfull, hF⟩ := hrep
  obtain ⟨hpc2, hpp, hslot, hsib, hC'⟩ := hCfull
  obtain ⟨hgc2, hgp2, hgslot, hsibg, hC''⟩ := hC'
  obtain ⟨huc, hup, hul, hur, hUl, hUr⟩ := hsibg
  obtain ⟨huBl, huBr, hndul, hndur, hulr⟩ := nodup_expose
    (by simpa [inord] using hndsibg)
  have hUo : ∀ j, j ∈ inord ul ∨ j ∈ inord ur → h3 j = h j := by
    intro j hj
    have hjU : j ∈ inord (T.nd u cu ul ur) := by
      rcases hj with hj | hj <;> simp [inord, hj]
    refine hother j ?_ ?_ ?_
    · intro e
      rcases hj with hj | hj
      · exact huBl (e ▸ hj)
      · exact huBr (e ▸ hj)
    · exact fun e => hpNotIn (by simp [e ▸ hjU])
    · exact fun e => hgNotIn (by simp [e ▸ hjU])
  have hg3 : h3 g = { h g with color := Color.Red } := by
    rw [hh3, setColor_self, setColor_other _ _ _ _ hpg.symm,
        setColor_other _ _ _ _ hgu]
  have hp3 : h3 p = { h p with color := Color.Black } := by
    rw [hh3, setColor_other _ _ _ _ hpg, setColor_self,
        setColor_other _ _ _ _ hpu]
  have hu3 : h3 u = { h u with color := Color.Black } := by
    rw [hh3, setColor_other _ _ _ _ (fun e => hgu e.symm),
        setColor_other _ _ _ _ (fun e => hpu e.symm), setColor_self]
  have hrepUl : rep h3 (some u) ul :=
    rep_frame hUl (fun j hj => hUo j (Or.inl hj))
  have hrepUr : rep h3 (some u) ur :=
    rep_frame hUr (fun j hj => hUo j (Or.inr hj))
  have hrepF : rep h3 (some p) (T.nd x c l r) := rep_frame hF hFo
  have hrepSib : rep h3 (some p) sib := rep_frame hsib hsibo
  have hrepK : repC h3 k'' (some g) := repC_frame hC'' hk2o
  have hrepU : rep h3 (some g) (T.nd u Color.Black ul ur) :=
    ⟨by rw [hu3], by rw [hu3]; exact hup, by rw [hu3]; exact hul,
     by rw [hu3]; exact hur, hrepUl, hrepUr⟩
  cases d with
  | Left =>
    have hrepP : rep h3 (some g) (T.nd p Color.Black (T.nd x c l r) sib) :=
      ⟨by rw [hp3], by rw [hp3]; exact hpp, by rw [hp3]; exact hslot.1,
       by rw [hp3]; exact hslot.2, hrepF, hrepSib⟩
    cases dg with
    | Left =>
      refine ⟨plug k'' (T.nd g Color.Red
          (T.nd p Color.Black (T.nd x c l r) sib)
          (T.nd u Color.Black ul ur)), ?_, ?_, ?_⟩
      · rw [rep_plug]
        exact ⟨hrepK, by rw [hg3], by rw [hg3]; exact hgp2,
               by rw [hg3]; exact hgslot.1, by rw [hg3]; exact hgslot.2,
               hrepP, hrepU⟩
      · exact inord_plug_congr (by simp [inord]) _
      · exact mem_inord_plug _ (by simp [inord])
    | Right =>
      refine ⟨plug k'' (T.nd g Color.Red (T.nd u Color.Black ul ur)
          (T.nd p Color.Black (T.nd x c l r) sib)), ?_, ?_, ?_⟩
      · rw [rep_plug]
        exact ⟨hrepK, by rw [hg3], by rw [hg3]; exact hgp2,
               by rw [hg3]; exact hgslot.2, by rw [hg3]; exact hgslot.1,
               hrepU, hrepP⟩
      · exact inord_plug_congr (by simp [inord]) _
      · exact mem_inord_plug _ (by simp [inord])
  | Right =>
    have hrepP : rep h3 (some g) (T.nd p Color.Black sib (T.nd x c l r)) :=
      ⟨by rw [hp3], by rw [hp3]; exact hpp, by rw [hp3]; exact hslot.2,
       by rw [hp3]; exact hslot.1, hrepSib, hrepF⟩
    cases dg with
    | Left =>
      refine ⟨plug k'' (T.nd g Color.Red
          (T.nd p Color.Black sib (T.nd x c l r))
          (T.nd u Color.Black ul ur)), ?_, ?_, ?_⟩
      · rw [rep_plug]
        exact ⟨hrepK, by rw [hg3], by rw [hg3]; exact hgp2,
               by rw [hg3]; exact hgslot.1, by rw [hg3]; exact hgslot.2,
               hrepP, hrepU⟩
      · exact inord_plug_congr (by simp [inord]) _
      · exact mem_inord_plug _ (by simp [inord])
    | Right =>
      refine ⟨plug k'' (T.nd g Color.Red (T.nd u Color.Black ul ur)
          (T.nd p Color.Black sib (T.nd x c l r))), ?_, ?_, ?_⟩
      · rw [rep_plug]
        exact ⟨hrepK, by rw [hg3], by rw [hg3]; exact hgp2,
               by rw [hg3]; exact hgslot.2, by rw [hg3]; exact hgslot.1,
               hrepU, hrepP⟩
      · exact inord_plug_congr (by simp [inord]) _
      · exact mem_inord_plug _ (by simp [inord])

end RBT

namespace RBT

/-- One `insert_fixup_step` on a represented tree keeps the heap
representing a tree with the same in-order sequence, and continues (if at
all) at a node of that tree. -/
lemma insert_fixup_step_inord {h : Heap} {t : T} {x : Nat}
    (hrep : rep h none t) (hnd : (inord t).Nodup) (hx : x ∈ inord t)
    {h' : Heap} {nxt : Option Nat}
    (heq : insert_fixup_step h x = .ok (h', nxt)) :
    ∃ t', rep h' none t' ∧ inord t' = inord t
      ∧ ∀ y, nxt = some y → y ∈ inord t' := by
  obtain ⟨k, c, l, r, hk⟩ := inord_decomp hx
  subst hk
  have hrepP := hrep
  rw [rep_plug] at hrepP
  obtain ⟨hC, hF⟩ := hrepP
  obtain ⟨hxc, hxp, hxl, hxr, hl, hr⟩ := hF
  cases k with
  | top =>
    rw [show holeParent Ctx.top = none from rfl] at hxp
    simp only [insert_fixup_step, is_root, hxp, decide_eq_true_eq,
      if_true, Res.ok.injEq, Prod.mk.injEq] at heq
    obtain ⟨he1, he2⟩ := heq
    subst he1
    subst he2
    obtain ⟨hxl', hxr', _, _, _⟩ := nodup_expose
      (by simpa [plug, inord] using hnd)
    refine ⟨T.nd x Color.Black l r, ⟨?_, ?_, ?_, ?_, ?_, ?_⟩, rfl,
      fun y hy => by cases hy⟩
    · simp [setColor_self]
    · simp [setColor_self]
      exact hxp
    · simp [setColor_self]
      exact hxl
    · simp [setColor_self]
      exact hxr
    · exact rep_frame hl (fun j hj =>
        setColor_other _ _ _ _ (fun e => hxl' (e ▸ hj)))
    · exact rep_frame hr (fun j hj =>
        setColor_other _ _ _ _ (fun e => hxr' (e ▸ hj)))
  | cons p pc d sib k' =>
    obtain ⟨hpc, hpp, hslot, hsib, hC'⟩ := hC
    rw [show holeParent (Ctx.cons p pc d sib k') = some p from rfl] at hxp
    have hdx : get_dir h x = d := by
      have := repC_get_dir (k := Ctx.cons p pc d sib k')
        ⟨hpc, hpp, hslot, hsib, hC'⟩ hxp rfl ?_
      · exact this
      · intro j hj
        have hnd' := ((inord_plug_perm (Ctx.cons p pc d sib k')
          (T.nd x c l r)).nodup_iff).mp hnd
        rw [List.nodup_append] at hnd'
        exact fun e => hnd'.2.2 hj (by simp [inord, e])
    simp only [insert_fixup_step, is_root, hxp, decide_eq_true_eq,
      reduceCtorEq, if_false, Bool.false_eq_true] at heq
    cases pc with
    | Black =>
      simp only [is_black, hpc, decide_eq_true_eq, if_true,
        Res.ok.injEq, Prod.mk.injEq] at heq
      obtain ⟨he1, he2⟩ := heq
      subst he1
      subst he2
      exact ⟨plug (Ctx.cons p Color.Black d sib k') (T.nd x c l r), hrep,
        rfl, fun y hy => by cases hy⟩
    | Red =>
      simp only [is_black, hpc, decide_eq_true_eq, reduceCtorEq, if_false,
        Bool.false_eq_true] at heq
      cases k' with
      | top =>
        rw [show holeParent Ctx.top = none from rfl] at hpp
        simp only [hpp] at heq
        cases heq
      | cons g gc dg sibg k'' =>
        obtain ⟨hgc, hgp2, hgslot, hsibg, hC''⟩ := hC'
        rw [show holeParent (Ctx.cons g gc dg sibg k'') = some g from rfl]
          at hpp
        have hdgp : get_dir h p = dg := by
          have := repC_get_dir (k := Ctx.cons g gc dg sibg k'')
            ⟨hgc, hgp2, hgslot, hsibg, hC''⟩ hpp rfl ?_
          · exact this
          · intro j hj
            have hnd' := ((inord_plug_perm (Ctx.cons p Color.Red d sib
              (Ctx.cons g gc dg sibg k'')) (T.nd x c l r)).nodup_iff).mp hnd
            rw [show inordC (Ctx.cons p Color.Red d sib
                  (Ctx.cons g gc dg sibg k''))
                  = p :: (inord sib ++ inordC (Ctx.cons g gc dg sibg k''))
                from by simp [inordC], List.nodup_append] at hnd'
            have hp2 := hnd'.1
            rw [List.nodup_cons] at hp2
            exact fun e => hp2.1 (List.mem_append_right _ (e ▸ hj))
        have huncle : getChild h g (Dir.opposite dg) = rootOf sibg := by
          cases dg with
          | Left => simpa [getChild, Dir.opposite] using hgslot.2
          | Right => simpa [getChild, Dir.opposite] using hgslot.2
        simp only [hpp, hdx, hdgp, huncle] at heq
        cases sibg with
        | nil =>
          rw [show rootOf T.nil = none from rfl] at heq
          simp only [get_dir_setColor, hdx] at heq
          exact insert_black_uncle hrep hnd heq
        | nd u cu ul ur =>
          rw [show rootOf (T.nd u cu ul ur) = some u from rfl] at heq
          obtain ⟨huc, hup, hul, hur, hUl, hUr⟩ := hsibg
          cases cu with
          | Black =>
            simp only [is_red, huc, decide_eq_true_eq, reduceCtorEq,
              if_false, Bool.false_eq_true, get_dir_setColor, hdx] at heq
            exact insert_black_uncle hrep hnd heq
          | Red =>
            simp only [is_red, huc, decide_eq_true_eq, if_true,
              setColor_parent, hxp, hpp, Res.ok.injEq, Prod.mk.injEq] at heq
            obtain ⟨he1, he2⟩ := heq
            subst he1
            subst he2
            obtain ⟨t', hrep', hio, hmem⟩ := insert_red_uncle hrep hnd
            exact ⟨t', hrep', hio, fun y hy => by
              injection hy with hy
              subst hy
              exact hmem⟩

end RBT

namespace RBT

/-- Recoloring the focused node preserves representation (with the focus
recolored in the represented tree). -/
lemma rep_setColor_focus {h : Heap} {k : Ctx} {x : Nat} {c : Color}
    {l r : T} (c' : Color)
    (hrep : rep h none (plug k (T.nd x c l r)))
    (hnd : (inord (plug k (T.nd x c l r))).Nodup) :
    rep (setColor h x c') none (plug k (T.nd x c' l r)) := by
  rw [rep_plug] at hrep ⊢
  obtain ⟨hC, hF⟩ := hrep
  obtain ⟨hxc, hxp, hxl, hxr, hl, hr⟩ := hF
  have hnd' := ((inord_plug_perm k _).nodup_iff).mp hnd
  rw [List.nodup_append] at hnd'
  obtain ⟨hndK, hndF, hdisj⟩ := hnd'
  obtain ⟨hxl', hxr', _, _, _⟩ := nodup_expose (by simpa [inord] using hndF)
  refine ⟨repC_frame hC (fun j hj => setColor_other _ _ _ _
      (fun e => hdisj hj (by simp [inord, e]))), ?_, ?_, ?_, ?_, ?_, ?_⟩
  · rw [setColor_self]
  · rw [setColor_self]
    exact hxp
  · rw [setColor_self]
    exact hxl
  · rw [setColor_self]
    exact hxr
  · exact rep_frame hl (fun j hj =>
      setColor_other _ _ _ _ (fun e => hxl' (e ▸ hj)))
  · exact rep_frame hr (fun j hj =>
      setColor_other _ _ _ _ (fun e => hxr' (e ▸ hj)))

end RBT

namespace RBT

/-- Red-sibling case of `remove_fixup_step`: recolor sibling black and
parent red, then rotate the parent toward the removed side; shape is
preserved up to the rotation and `x` stays in the tree. -/
lemma remove_red_sibling {h : Heap} {x p s : Nat} {c pc cs : Color} {d : Dir}
    {l r sl sr : T} {k' : Ctx}
    (hrep : rep h none (plug (Ctx.cons p pc d (T.nd s cs sl sr) k')
      (T.nd x c l r)))
    (hnd : (inord (plug (Ctx.cons p pc d (T.nd s cs sl sr) k')
      (T.nd x c l r))).Nodup) :
    ∃ h3 t', rotate (setColor (setColor h s Color.Black) p Color.Red) p d
        = .ok h3
      ∧ rep h3 none t'
      ∧ inord t' = inord (plug (Ctx.cons p pc d (T.nd s cs sl sr) k')
          (T.nd x c l r))
      ∧ x ∈ inord t' := by
  cases d with
  | Left =>
    have hrep1 := rep_setColor_focus
      (k := Ctx.cons p pc Dir.Right (T.nd x c l r) k') (x := s) (c := cs)
      (l := sl) (r := sr) Color.Black hrep hnd
    have hnd1 : (inord (plug (Ctx.cons p pc Dir.Right (T.nd x c l r) k')
        (T.nd s Color.Black sl sr))).Nodup := by
      show (inord (plug k' (T.nd p pc (T.nd x c l r)
        (T.nd s Color.Black sl sr)))).Nodup
      rw [inord_plug_congr (show inord (T.nd p pc (T.nd x c l r)
            (T.nd s Color.Black sl sr))
          = inord (T.nd p pc (T.nd x c l r) (T.nd s cs sl sr)) from by
        simp [inord]) k']
      exact hnd
    have hrep2 := rep_setColor_focus (k := k') (x := p) (c := pc)
      (l := T.nd x c l r) (r := T.nd s Color.Black sl sr) Color.Red
      hrep1 hnd1
    have hnd2 : (inord (plug k' (T.nd p Color.Red (T.nd x c l r)
        (T.nd s Color.Black sl sr)))).Nodup := by
      rw [inord_plug_congr (show inord (T.nd p Color.Red (T.nd x c l r)
            (T.nd s Color.Black sl sr))
          = inord (T.nd p pc (T.nd x c l r) (T.nd s cs sl sr)) from by
        simp [inord]) k']
      exact hnd
    obtain ⟨h3, hrot, hrep3, _⟩ := rotate_left_rep (k := k') (x := p)
      (A := T.nd x c l r) (y := s) (B := sl) (C := sr) hrep2 hnd2
    refine ⟨h3, plug k' (T.nd s Color.Black
        (T.nd p Color.Red (T.nd x c l r) sl) sr), hrot, hrep3, ?_, ?_⟩
    · exact inord_plug_congr (by simp [inord]) k'
    · exact mem_inord_plug _ (by simp [inord])
  | Right =>
    have hrep1 := rep_setColor_focus
      (k := Ctx.cons p pc Dir.Left (T.nd x c l r) k') (x := s) (c := cs)
      (l := sl) (r := sr) Color.Black hrep hnd
    have hnd1 : (inord (plug (Ctx.cons p pc Dir.Left (T.nd x c l r) k')
        (T.nd s Color.Black sl sr))).Nodup := by
      show (inord (plug k' (T.nd p pc (T.nd s Color.Black sl sr)
        (T.nd x c l r)))).Nodup
      rw [inord_plug_congr (show inord (T.nd p pc (T.nd s Color.Black sl sr)
            (T.nd x c l r))
          = inord (T.nd p pc (T.nd s cs sl sr) (T.nd x c l r)) from by
        simp [inord]) k']
      exact hnd
    have hrep2 := rep_setColor_focus (k := k') (x := p) (c := pc)
      (l := T.nd s Color.Black sl sr) (r := T.nd x c l r) Color.Red
      hrep1 hnd1
    have hnd2 : (inord (plug k' (T.nd p Color.Red
        (T.nd s Color.Black sl sr) (T.nd x c l r)))).Nodup := by
      rw [inord_plug_congr (show inord (T.nd p Color.Red
            (T.nd s Color.Black sl sr) (T.nd x c l r))
          = inord (T.nd p pc (T.nd s cs sl sr) (T.nd x c l r)) from by
        simp [inord]) k']
      exact hnd
    obtain ⟨h3, hrot, hrep3, _⟩ := rotate_right_rep (k := k') (x := p)
      (y := s) (C := sl) (B := sr)
      (A := T.nd x c l r) hrep2 hnd2
    refine ⟨h3, plug k' (T.nd s Color.Black sl
        (T.nd p Color.Red sr (T.nd x c l r))), hrot, hrep3, ?_, ?_⟩
    · exact inord_plug_congr (by simp [inord]) k'
    · exact mem_inord_plug _ (by simp [inord])

end RBT

namespace RBT

/-- Near-child case of `remove_fixup_step` (black sibling whose child on
the removed side is the one rotated up): recolor the near child black and
the sibling red, rotate the sibling away from the removed side. -/
lemma remove_case3 {h : Heap} {x p s n : Nat} {c pc cs cn : Color} {d : Dir}
    {l r nl nr far : T} {k' : Ctx}
    (hrep : rep h none (plug (Ctx.cons p pc d
      (T.nd s cs (match d with
        | Dir.Left => T.nd n cn nl nr
        | Dir.Right => far)
        (match d with
        | Dir.Left => far
        | Dir.Right => T.nd n cn nl nr)) k') (T.nd x c l r)))
    (hnd : (inord (plug (Ctx.cons p pc d
      (T.nd s cs (match d with
        | Dir.Left => T.nd n cn nl nr
        | Dir.Right => far)
        (match d with
        | Dir.Left => far
        | Dir.Right => T.nd n cn nl nr)) k') (T.nd x c l r))).Nodup) :
    ∃ h3 t', rotate (setColor (setColor h n Color.Black) s Color.Red) s
        (Dir.opposite d) = .ok h3
      ∧ rep h3 none t'
      ∧ inord t' = inord (plug (Ctx.cons p pc d
          (T.nd s cs (match d with
            | Dir.Left => T.nd n cn nl nr
            | Dir.Right => far)
            (match d with
            | Dir.Left => far
            | Dir.Right => T.nd n cn nl nr)) k') (T.nd x c l r))
      ∧ x ∈ inord t' := by
  cases d with
  | Left =>
    have hrep1 := rep_setColor_focus
      (k := Ctx.cons s cs Dir.Left far
        (Ctx.cons p pc Dir.Right (T.nd x c l r) k'))
      (x := n) (c := cn) (l := nl) (r := nr) Color.Black hrep hnd
    have hnd1 : (inord (plug (Ctx.cons s cs Dir.Left far
        (Ctx.cons p pc Dir.Right (T.nd x c l r) k'))
        (T.nd n Color.Black nl nr))).Nodup := by
      show (inord (plug k' (T.nd p pc (T.nd x c l r)
        (T.nd s cs (T.nd n Color.Black nl nr) far)))).Nodup
      rw [inord_plug_congr (show inord (T.nd p pc (T.nd x c l r)
            (T.nd s cs (T.nd n Color.Black nl nr) far))
          = inord (T.nd p pc (T.nd x c l r)
            (T.nd s cs (T.nd n cn nl nr) far)) from by simp [inord]) k']
      exact hnd
    have hrep2 := rep_setColor_focus
      (k := Ctx.cons p pc Dir.Right (T.nd x c l r) k') (x := s) (c := cs)
      (l := T.nd n Color.Black nl nr) (r := far) Color.Red hrep1 hnd1
    have hnd2 : (inord (plug (Ctx.cons p pc Dir.Right (T.nd x c l r) k')
        (T.nd s Color.Red (T.nd n Color.Black nl nr) far))).Nodup := by
      show (inord (plug k' (T.nd p pc (T.nd x c l r)
        (T.nd s Color.Red (T.nd n Color.Black nl nr) far)))).Nodup
      rw [inord_plug_congr (show inord (T.nd p pc (T.nd x c l r)
            (T.nd s Color.Red (T.nd n Color.Black nl nr) far))
          = inord (T.nd p pc (T.nd x c l r)
            (T.nd s cs (T.nd n cn nl nr) far)) from by simp [inord]) k']
      exact hnd
    obtain ⟨h3, hrot, hrep3, _⟩ := rotate_right_rep
      (k := Ctx.cons p pc Dir.Right (T.nd x c l r) k') (x := s)
      (y := n) (C := nl) (B := nr)
      (A := far) hrep2 hnd2
    refine ⟨h3, plug (Ctx.cons p pc Dir.Right (T.nd x c l r) k')
        (T.nd n Color.Black nl (T.nd s Color.Red nr far)), hrot, hrep3,
        ?_, ?_⟩
    · show inord (plug k' (T.nd p pc (T.nd x c l r)
        (T.nd n Color.Black nl (T.nd s Color.Red nr far)))) = _
      exact inord_plug_congr (by simp [inord]) k'
    · show x ∈ inord (plug k' (T.nd p pc (T.nd x c l r)
        (T.nd n Color.Black nl (T.nd s Color.Red nr far))))
      exact mem_inord_plug _ (by simp [inord])
  | Right =>
    have hrep1 := rep_setColor_focus
      (k := Ctx.cons s cs Dir.Right far
        (Ctx.cons p pc Dir.Left (T.nd x c l r) k'))
      (x := n) (c := cn) (l := nl) (r := nr) Color.Black hrep hnd
    have hnd1 : (inord (plug (Ctx.cons s cs Dir.Right far
        (Ctx.cons p pc Dir.Left (T.nd x c l r) k'))
        (T.nd n Color.Black nl nr))).Nodup := by
      show (inord (plug k' (T.nd p pc
        (T.nd s cs far (T.nd n Color.Black nl nr)) (T.nd x c l r)))).Nodup
      rw [inord_plug_congr (show inord (T.nd p pc
            (T.nd s cs far (T.nd n Color.Black nl nr)) (T.nd x c l r))
          = inord (T.nd p pc (T.nd s cs far (T.nd n cn nl nr))
            (T.nd x c l r)) from by simp [inord]) k']
      exact hnd
    have hrep2 := rep_setColor_focus
      (k := Ctx.cons p pc Dir.Left (T.nd x c l r) k') (x := s) (c := cs)
      (l := far) (r := T.nd n Color.Black nl nr) Color.Red hrep1 hnd1
    have hnd2 : (inord (plug (Ctx.cons p pc Dir.Left (T.nd x c l r) k')
        (T.nd s Color.Red far (T.nd n Color.Black nl nr)))).Nodup := by
      show (inord (plug k' (T.nd p pc
        (T.nd s Color.Red far (T.nd n Color.Black nl nr))
        (T.nd x c l r)))).Nodup
      rw [inord_plug_congr (show inord (T.nd p pc
            (T.nd s Color.Red far (T.nd n Color.Black nl nr))
            (T.nd x c l r))
          = inord (T.nd p pc (T.nd s cs far (T.nd n cn nl nr))
            (T.nd x c l r)) from by simp [inord]) k']
      exact hnd
    obtain ⟨h3, hrot, hrep3, _⟩ := rotate_left_rep
      (k := Ctx.cons p pc Dir.Left (T.nd x c l r) k') (x := s)
      (A := far) (y := n) (B := nl)
      (C := nr) hrep2 hnd2
    refine ⟨h3, plug (Ctx.cons p pc Dir.Left (T.nd x c l r) k')
        (T.nd n Color.Black (T.nd s Color.Red far nl) nr), hrot, hrep3,
        ?_, ?_⟩
    · show inord (plug k' (T.nd p pc
        (T.nd n Color.Black (T.nd s Color.Red far nl) nr)
        (T.nd x c l r))) = _
      exact inord_plug_congr (by simp [inord]) k'
    · show x ∈ inord (plug k' (T.nd p pc
        (T.nd n Color.Black (T.nd s Color.Red far nl) nr)
        (T.nd x c l r)))
      exact mem_inord_plug _ (by simp [inord])

end RBT

namespace RBT

/-- Far-child case of `remove_fixup_step`: sibling takes the parent's
color, parent and far child become black, parent rotates toward the
removed side.  Exposes the parent pointers the source re-reads after the
rotation. -/
lemma remove_case4 {h : Heap} {x p s f : Nat} {c pc cs cf : Color} {d : Dir}
    {l r near fl fr : T} {k' : Ctx}
    (hrep : rep h none (plug (Ctx.cons p pc d
      (T.nd s cs (match d with
        | Dir.Left => near
        | Dir.Right => T.nd f cf fl fr)
        (match d with
        | Dir.Left => T.nd f cf fl fr
        | Dir.Right => near)) k') (T.nd x c l r)))
    (hnd : (inord (plug (Ctx.cons p pc d
      (T.nd s cs (match d with
        | Dir.Left => near
        | Dir.Right => T.nd f cf fl fr)
        (match d with
        | Dir.Left => T.nd f cf fl fr
        | Dir.Right => near)) k') (T.nd x c l r))).Nodup) :
    ∃ h4 t', rotate (setColor (setColor (setColor h s pc) p Color.Black)
        f Color.Black) p d = .ok h4
      ∧ rep h4 none t'
      ∧ inord t' = inord (plug (Ctx.cons p pc d
          (T.nd s cs (match d with
            | Dir.Left => near
            | Dir.Right => T.nd f cf fl fr)
            (match d with
            | Dir.Left => T.nd f cf fl fr
            | Dir.Right => near)) k') (T.nd x c l r))
      ∧ x ∈ inord t' ∧ s ∈ inord t'
      ∧ (h4 x).parent = some p ∧ (h4 p).parent = some s
      ∧ (h4 s).parent = holeParent k' := by
  cases d with
  | Left =>
    have hrep1 := rep_setColor_focus
      (k := Ctx.cons p pc Dir.Right (T.nd x c l r) k') (x := s) (c := cs)
      (l := near) (r := T.nd f cf fl fr) pc hrep hnd
    have hnd1 : (inord (plug (Ctx.cons p pc Dir.Right (T.nd x c l r) k')
        (T.nd s pc near (T.nd f cf fl fr)))).Nodup := by
      show (inord (plug k' (T.nd p pc (T.nd x c l r)
        (T.nd s pc near (T.nd f cf fl fr))))).Nodup
      rw [inord_plug_congr (show inord (T.nd p pc (T.nd x c l r)
            (T.nd s pc near (T.nd f cf fl fr)))
          = inord (T.nd p pc (T.nd x c l r)
            (T.nd s cs near (T.nd f cf fl fr))) from by simp [inord]) k']
      exact hnd
    have hrep2 := rep_setColor_focus (k := k') (x := p) (c := pc)
      (l := T.nd x c l r) (r := T.nd s pc near (T.nd f cf fl fr))
      Color.Black hrep1 hnd1
    have hnd2 : (inord (plug k' (T.nd p Color.Black (T.nd x c l r)
        (T.nd s pc near (T.nd f cf fl fr))))).Nodup := by
      rw [inord_plug_congr (show inord (T.nd p Color.Black (T.nd x c l r)
            (T.nd s pc near (T.nd f cf fl fr)))
          = inord (T.nd p pc (T.nd x c l r)
            (T.nd s cs near (T.nd f cf fl fr))) from by simp [inord]) k']
      exact hnd
    have hrep3 := rep_setColor_focus
      (k := Ctx.cons s pc Dir.Right near
        (Ctx.cons p Color.Black Dir.Right (T.nd x c l r) k'))
      (x := f) (c := cf) (l := fl) (r := fr) Color.Black hrep2 hnd2
    have hnd3 : (inord (plug k' (T.nd p Color.Black (T.nd x c l r)
        (T.nd s pc near (T.nd f Color.Black fl fr))))).Nodup := by
      rw [inord_plug_congr (show inord (T.nd p Color.Black (T.nd x c l r)
            (T.nd s pc near (T.nd f Color.Black fl fr)))
          = inord (T.nd p pc (T.nd x c l r)
            (T.nd s cs near (T.nd f cf fl fr))) from by simp [inord]) k']
      exact hnd
    obtain ⟨h4, hrot, hrep4, _⟩ := rotate_left_rep (k := k') (x := p)
      (A := T.nd x c l r) (y := s) (B := near) (C := T.nd f Color.Black fl fr) hrep3 hnd3
    have hrep4' := hrep4
    rw [rep_plug] at hrep4'
    obtain ⟨_, hf4⟩ := hrep4'
    obtain ⟨_, hsp4, _, _, hP4, _⟩ := hf4
    obtain ⟨_, hpp4, _, _, hF4, _⟩ := hP4
    obtain ⟨_, hxp4, _, _, _, _⟩ := hF4
    refine ⟨h4, plug k' (T.nd s pc
        (T.nd p Color.Black (T.nd x c l r) near)
        (T.nd f Color.Black fl fr)), hrot, hrep4, ?_,
        mem_inord_plug _ (by simp [inord]),
        mem_inord_plug _ (by simp [inord]), hxp4, hpp4, hsp4⟩
    · exact inord_plug_congr (by simp [inord]) k'
  | Right =>
    have hrep1 := rep_setColor_focus
      (k := Ctx.cons p pc Dir.Left (T.nd x c l r) k') (x := s) (c := cs)
      (l := T.nd f cf fl fr) (r := near) pc hrep hnd
    have hnd1 : (inord (plug (Ctx.cons p pc Dir.Left (T.nd x c l r) k')
        (T.nd s pc (T.nd f cf fl fr) near))).Nodup := by
      show (inord (plug k' (T.nd p pc
        (T.nd s pc (T.nd f cf fl fr) near) (T.nd x c l r)))).Nodup
      rw [inord_plug_congr (show inord (T.nd p pc
            (T.nd s pc (T.nd f cf fl fr) near) (T.nd x c l r))
          = inord (T.nd p pc (T.nd s cs (T.nd f cf fl fr) near)
            (T.nd x c l r)) from by simp [inord]) k']
      exact hnd
    have hrep2 := rep_setColor_focus (k := k') (x := p) (c := pc)
      (l := T.nd s pc (T.nd f cf fl fr) near) (r := T.nd x c l r)
      Color.Black hrep1 hnd1
    have hnd2 : (inord (plug k' (T.nd p Color.Black
        (T.nd s pc (T.nd f cf fl fr) near) (T.nd x c l r)))).Nodup := by
      rw [inord_plug_congr (show inord (T.nd p Color.Black
            (T.nd s pc (T.nd f cf fl fr) near) (T.nd x c l r))
          = inord (T.nd p pc (T.nd s cs (T.nd f cf fl fr) near)
            (T.nd x c l r)) from by simp [inord]) k']
      exact hnd
    have hrep3 := rep_setColor_focus
      (k := Ctx.cons s pc Dir.Left near
        (Ctx.cons p Color.Black Dir.Left (T.nd x c l r) k'))
      (x := f) (c := cf) (l := fl) (r := fr) Color.Black hrep2 hnd2
    have hnd3 : (inord (plug k' (T.nd p Color.Black
        (T.nd s pc (T.nd f Color.Black fl fr) near)
        (T.nd x c l r)))).Nodup := by
      rw [inord_plug_congr (show inord (T.nd p Color.Black
            (T.nd s pc (T.nd f Color.Black fl fr) near) (T.nd x c l r))
          = inord (T.nd p pc (T.nd s cs (T.nd f cf fl fr) near)
            (T.nd x c l r)) from by simp [inord]) k']
      exact hnd
    obtain ⟨h4, hrot, hrep4, _⟩ := rotate_right_rep (k := k') (x := p)
      (y := s) (C := T.nd f Color.Black fl fr) (B := near) (A := T.nd x c l r)
      hrep3 hnd3
    have hrep4' := hrep4
    rw [rep_plug] at hrep4'
    obtain ⟨_, hf4⟩ := hrep4'
    obtain ⟨_, hsp4, _, _, _, hP4⟩ := hf4
    obtain ⟨_, hpp4, _, _, _, hF4⟩ := hP4
    obtain ⟨_, hxp4, _, _, _, _⟩ := hF4
    refine ⟨h4, plug k' (T.nd s pc (T.nd f Color.Black fl fr)
        (T.nd p Color.Black near (T.nd x c l r))), hrot, hrep4, ?_,
        mem_inord_plug _ (by simp [inord]),
        mem_inord_plug _ (by simp [inord]), hxp4, hpp4, hsp4⟩
    · exact inord_plug_congr (by simp [inord]) k'

end RBT

namespace RBT

/-- One `remove_fixup_step` on a represented tree keeps the heap
representing a tree with the same in-order sequence, and continues (if at
all) at a node of that tree. -/
lemma remove_fixup_step_inord {h : Heap} {t : T} {x : Nat}
    (hrep : rep h none t) (hnd : (inord t).Nodup) (hx : x ∈ inord t)
    {h' : Heap} {nxt : Option Nat}
    (heq : remove_fixup_step h x = .ok (h', nxt)) :
    ∃ t', rep h' none t' ∧ inord t' = inord t
      ∧ ∀ y, nxt = some y → y ∈ inord t' := by
  obtain ⟨k, c, l, r, hk⟩ := inord_decomp hx
  subst hk
  have hrepP := hrep
  rw [rep_plug] at hrepP
  obtain ⟨hC, hF⟩ := hrepP
  obtain ⟨hxc, hxp, hxl, hxr, hl, hr⟩ := hF
  unfold remove_fixup_step at heq
  by_cases hroot : (is_root h x || is_red h x) = true
  · rw [if_pos hroot] at heq
    have heq2 : Res.ok ((setColor h x Color.Black : Heap),
        (none : Option Nat)) = Res.ok (h', nxt) := heq
    injection heq2 with heq3
    injection heq3 with he1 he2
    subst he1
    subst he2
    refine ⟨plug k (T.nd x Color.Black l r),
      rep_setColor_focus Color.Black hrep hnd,
      inord_plug_congr (by simp [inord]) k, fun y hy => by cases hy⟩
  · rw [if_neg hroot] at heq
    rw [Bool.or_eq_true] at hroot
    push_neg at hroot
    obtain ⟨hnroot, hnred⟩ := hroot
    have hcB : c = Color.Black := by
      rw [is_red, hxc] at hnred
      cases c with
      | Black => rfl
      | Red => simp at hnred
    subst hcB
    cases k with
    | top =>
      exact absurd (by simp [is_root, hxp, holeParent]) hnroot
    | cons p pc d sib k' =>
      obtain ⟨hpc, hpp, hslot, hsib, hC'⟩ := hC
      rw [show holeParent (Ctx.cons p pc d sib k') = some p from rfl] at hxp
      have hdx : get_dir h x = d := by
        have := repC_get_dir (k := Ctx.cons p pc d sib k')
          ⟨hpc, hpp, hslot, hsib, hC'⟩ hxp rfl ?_
        · exact this
        · intro j hj
          have hnd' := ((inord_plug_perm (Ctx.cons p pc d sib k')
            (T.nd x Color.Black l r)).nodup_iff).mp hnd
          rw [List.nodup_append] at hnd'
          exact fun e => hnd'.2.2 hj (by simp [inord, e])
      cases d with
      | Left =>
        have hsl2 : getChild h p Dir.Right = rootOf sib := by
          simpa [getChild, Dir.opposite] using hslot.2
        simp only [hxp, hdx, Dir.opposite, hsl2] at heq
        cases sib with
        | nil =>
          rw [show rootOf T.nil = none from rfl] at heq
          cases heq
        | nd s cs sl sr =>
          rw [show rootOf (T.nd s cs sl sr) = some s from rfl] at heq
          obtain ⟨hsc, hsp, hslc, hsrc, hSl, hSr⟩ := hsib
          cases cs with
          | Red =>
            simp only [is_red, hsc, decide_eq_true_eq, if_true] at heq
            obtain ⟨h3, t', hrot, hrep3, hio, hxmem⟩ :=
              remove_red_sibling (d := Dir.Left) hrep hnd
            rw [hrot] at heq
            have heq2 : Res.ok (h3, some x) = Res.ok (h', nxt) := heq
            injection heq2 with heq3
            injection heq3 with he1 he2
            subst he1
            subst he2
            exact ⟨t', hrep3, hio, fun y hy => by
              injection hy with hy
              subst hy
              exact hxmem⟩
          | Black =>
            simp only [is_red, hsc, decide_eq_true_eq, reduceCtorEq,
              if_false, Bool.false_eq_true] at heq
            by_cases hbb : ((Option.all (fun i => is_black h i) (h s).left)
                && (Option.all (fun i => is_black h i) (h s).right)) = true
            · rw [if_pos hbb] at heq
              have heq2 : Res.ok ((setColor h s Color.Red : Heap),
                  (some p : Option Nat)) = Res.ok (h', nxt) := heq
              injection heq2 with heq3
              injection heq3 with he1 he2
              subst he1
              subst he2
              refine ⟨plug (Ctx.cons p pc Dir.Right (T.nd x Color.Black l r)
                  k') (T.nd s Color.Red sl sr),
                rep_setColor_focus (k := Ctx.cons p pc Dir.Right
                  (T.nd x Color.Black l r) k') Color.Red hrep hnd,
                ?_, ?_⟩
              · show inord (plug k' (T.nd p pc (T.nd x Color.Black l r)
                  (T.nd s Color.Red sl sr))) = _
                exact inord_plug_congr (by simp [inord]) k'
              · intro y hy
                injection hy with hy
                subst hy
                show p ∈ inord (plug k' (T.nd p pc (T.nd x Color.Black l r)
                  (T.nd s Color.Red sl sr)))
                exact mem_inord_plug _ (by simp [inord])
            · rw [if_neg hbb] at heq
              by_cases hfar : (Option.all (fun i => is_black h i)
                  (getChild h s Dir.Right)) = true
              · rw [if_pos hfar] at heq
                rw [show getChild h s Dir.Left = (h s).left from rfl,
                  hslc] at heq
                cases sl with
                | nil =>
                  rw [show rootOf T.nil = none from rfl] at heq
                  cases heq
                | nd n cn nl nr =>
                  simp only [rootOf] at heq
                  obtain ⟨h3, t', hrot, hrep3, hio, hxmem⟩ :=
                    remove_case3 (d := Dir.Left) hrep hnd
                  rw [show Dir.opposite Dir.Left = Dir.Right from rfl]
                    at hrot
                  rw [hrot] at heq
                  have heq2 : Res.ok (h3, some x) = Res.ok (h', nxt) := heq
                  injection heq2 with heq3
                  injection heq3 with he1 he2
                  subst he1
                  subst he2
                  exact ⟨t', hrep3, hio, fun y hy => by
                    injection hy with hy
                    subst hy
                    exact hxmem⟩
              · rw [if_neg hfar] at heq
                rw [hpc] at heq
                have hg2 : getChild (setColor (setColor h s pc) p
                    Color.Black) s Dir.Right = rootOf sr := by
                  simp [getChild, setColor_right]
                  exact hsrc
                rw [hg2] at heq
                cases sr with
                | nil =>
                  rw [show rootOf T.nil = none from rfl] at heq
                  cases heq
                | nd f cf fl fr =>
                  simp only [rootOf] at heq
                  obtain ⟨h4, t', hrot, hrep4, hio, hxm, hsm, hxp4, hpp4,
                    hsp4⟩ := remove_case4 (d := Dir.Left) hrep hnd
                  rw [hrot] at heq
                  simp only [hxp4, hpp4, hsp4] at heq
                  cases k' with
                  | top =>
                    rw [show holeParent Ctx.top = none from rfl] at heq
                    have heq2 : Res.ok (h4, some s) = Res.ok (h', nxt) := by
                      rw [if_pos rfl] at heq
                      exact heq
                    injection heq2 with heq3
                    injection heq3 with he1 he2
                    subst he1
                    subst he2
                    exact ⟨t', hrep4, hio, fun y hy => by
                      injection hy with hy
                      subst hy
                      exact hsm⟩
                  | cons q qc dq sibq k'' =>
                    rw [show holeParent (Ctx.cons q qc dq sibq k'')
                      = some q from rfl] at heq
                    have heq2 : Res.ok (h4, (none : Option Nat))
                        = Res.ok (h', nxt) := by
                      rw [if_neg (by simp)] at heq
                      exact heq
                    injection heq2 with heq3
                    injection heq3 with he1 he2
                    subst he1
                    subst he2
                    exact ⟨t', hrep4, hio, fun y hy => by cases hy⟩
      | Right =>
        have hsl2 : getChild h p Dir.Left = rootOf sib := by
          simpa [getChild, Dir.opposite] using hslot.2
        simp only [hxp, hdx, Dir.opposite, hsl2] at heq
        cases sib with
        | nil =>
          rw [show rootOf T.nil = none from rfl] at heq
          cases heq
        | nd s cs sl sr =>
          rw [show rootOf (T.nd s cs sl sr) = some s from rfl] at heq
          obtain ⟨hsc, hsp, hslc, hsrc, hSl, hSr⟩ := hsib
          cases cs with
          | Red =>
            simp only [is_red, hsc, decide_eq_true_eq, if_true] at heq
            obtain ⟨h3, t', hrot, hrep3, hio, hxmem⟩ :=
              remove_red_sibling (d := Dir.Right) hrep hnd
            rw [hrot] at heq
            have heq2 : Res.ok (h3, some x) = Res.ok (h', nxt) := heq
            injection heq2 with heq3
            injection heq3 with he1 he2
            subst he1
            subst he2
            exact ⟨t', hrep3, hio, fun y hy => by
              injection hy with hy
              subst hy
              exact hxmem⟩
          | Black =>
            simp only [is_red, hsc, decide_eq_true_eq, reduceCtorEq,
              if_false, Bool.false_eq_true] at heq
            by_cases hbb : ((Option.all (fun i => is_black h i) (h s).left)
                && (Option.all (fun i => is_black h i) (h s).right)) = true
            · rw [if_pos hbb] at heq
              have heq2 : Res.ok ((setColor h s Color.Red : Heap),
                  (some p : Option Nat)) = Res.ok (h', nxt) := heq
              injection heq2 with heq3
              injection heq3 with he1 he2
              subst he1
              subst he2
              refine ⟨plug (Ctx.cons p pc Dir.Left (T.nd x Color.Black l r)
                  k') (T.nd s Color.Red sl sr),
                rep_setColor_focus (k := Ctx.cons p pc Dir.Left
                  (T.nd x Color.Black l r) k') Color.Red hrep hnd,
                ?_, ?_⟩
              · show inord (plug k' (T.nd p pc (T.nd s Color.Red sl sr)
                  (T.nd x Color.Black l r))) = _
                exact inord_plug_congr (by simp [inord]) k'
              · intro y hy
                injection hy with hy
                subst hy
                show p ∈ inord (plug k' (T.nd p pc (T.nd s Color.Red sl sr)
                  (T.nd x Color.Black l r)))
                exact mem_inord_plug _ (by simp [inord])
            · rw [if_neg hbb] at heq
              by_cases hfar : (Option.all (fun i => is_black h i)
                  (getChild h s Dir.Left)) = true
              · rw [if_pos hfar] at heq
                rw [show getChild h s Dir.Right = (h s).right from rfl,
                  hsrc] at heq
                cases sr with
                | nil =>
                  rw [show rootOf T.nil = none from rfl] at heq
                  cases heq
                | nd n cn nl nr =>
                  simp only [rootOf] at heq
                  obtain ⟨h3, t', hrot, hrep3, hio, hxmem⟩ :=
                    remove_case3 (d := Dir.Right) hrep hnd
                  rw [show Dir.opposite Dir.Right = Dir.Left from rfl]
                    at hrot
                  rw [hrot] at heq
                  have heq2 : Res.ok (h3, some x) = Res.ok (h', nxt) := heq
                  injection heq2 with heq3
                  injection heq3 with he1 he2
                  subst he1
                  subst he2
                  exact ⟨t', hrep3, hio, fun y hy => by
                    injection hy with hy
                    subst hy
                    exact hxmem⟩
              · rw [if_neg hfar] at heq
                rw [hpc] at heq
                have hg2 : getChild (setColor (setColor h s pc) p
                    Color.Black) s Dir.Left = rootOf sl := by
                  simp [getChild, setColor_left]
                  exact hslc
                rw [hg2] at heq
                cases sl with
                | nil =>
                  rw [show rootOf T.nil = none from rfl] at heq
                  cases heq
                | nd f cf fl fr =>
                  simp only [rootOf] at heq
                  obtain ⟨h4, t', hrot, hrep4, hio, hxm, hsm, hxp4, hpp4,
                    hsp4⟩ := remove_case4 (d := Dir.Right) hrep hnd
                  rw [hrot] at heq
                  simp only [hxp4, hpp4, hsp4] at heq
                  cases k' with
                  | top =>
                    rw [show holeParent Ctx.top = none from rfl] at heq
                    have heq2 : Res.ok (h4, some s) = Res.ok (h', nxt) := by
                      rw [if_pos rfl] at heq
                      exact heq
                    injection heq2 with heq3
                    injection heq3 with he1 he2
                    subst he1
                    subst he2
                    exact ⟨t', hrep4, hio, fun y hy => by
                      injection hy with hy
                      subst hy
                      exact hsm⟩
                  | cons q qc dq sibq k'' =>
                    rw [show holeParent (Ctx.cons q qc dq sibq k'')
                      = some q from rfl] at heq
                    have heq2 : Res.ok (h4, (none : Option Nat))
                        = Res.ok (h', nxt) := by
                      rw [if_neg (by simp)] at heq
                      exact heq
                    injection heq2 with heq3
                    injection heq3 with he1 he2
                    subst he1
                    subst he2
                    exact ⟨t', hrep4, hio, fun y hy => by cases hy⟩

end RBT

namespace RBT

/-- The `insert_fixup` loop preserves the in-order sequence of the
represented tree. -/
lemma insert_fixup_inord : ∀ (fuel : Nat) {h : Heap} {t : T} {x : Nat},
    rep h none t → (inord t).Nodup → x ∈ inord t →
    ∀ {h' : Heap}, insert_fixup fuel h x = .ok h' →
    ∃ t', rep h' none t' ∧ inord t' = inord t := by
  intro fuel
  induction fuel with
  | zero =>
    intro h t x _ _ _ h' heq
    cases heq
  | succ fuel ih =>
    intro h t x hrep hnd hx h' heq
    have heq' : (match insert_fixup_step h x with
        | Res.ok (h1, none) => Res.ok h1
        | Res.ok (h1, some y) => insert_fixup fuel h1 y
        | Res.ub => (Res.ub : Res Heap)
        | Res.oof => Res.oof) = Res.ok h' := heq
    cases hstep : insert_fixup_step h x with
    | ok pr =>
      obtain ⟨h1, nxt⟩ := pr
      obtain ⟨t', hrep', hio, hmem⟩ :=
        insert_fixup_step_inord hrep hnd hx hstep
      rw [hstep] at heq'
      cases nxt with
      | none =>
        have heq2 : Res.ok h1 = Res.ok h' := heq'
        injection heq2 with he
        subst he
        exact ⟨t', hrep', hio⟩
      | some y =>
        have heq2 : insert_fixup fuel h1 y = Res.ok h' := heq'
        obtain ⟨t'', hrep'', hio''⟩ := ih hrep' (by rw [hio]; exact hnd)
          (hmem y rfl) heq2
        exact ⟨t'', hrep'', hio''.trans hio⟩
    | ub =>
      rw [hstep] at heq'
      cases heq'
    | oof =>
      rw [hstep] at heq'
      cases heq'

/-- The `remove_fixup` loop preserves the in-order sequence of the
represented tree. -/
lemma remove_fixup_inord : ∀ (fuel : Nat) {h : Heap} {t : T} {x : Nat},
    rep h none t → (inord t).Nodup → x ∈ inord t →
    ∀ {h' : Heap}, remove_fixup fuel h x = .ok h' →
    ∃ t', rep h' none t' ∧ inord t' = inord t := by
  intro fuel
  induction fuel with
  | zero =>
    intro h t x _ _ _ h' heq
    cases heq
  | succ fuel ih =>
    intro h t x hrep hnd hx h' heq
    have heq' : (match remove_fixup_step h x with
        | Res.ok (h1, none) => Res.ok h1
        | Res.ok (h1, some y) => remove_fixup fuel h1 y
        | Res.ub => (Res.ub : Res Heap)
        | Res.oof => Res.oof) = Res.ok h' := heq
    cases hstep : remove_fixup_step h x with
    | ok pr =>
      obtain ⟨h1, nxt⟩ := pr
      obtain ⟨t', hrep', hio, hmem⟩ :=
        remove_fixup_step_inord hrep hnd hx hstep
      rw [hstep] at heq'
      cases nxt with
      | none =>
        have heq2 : Res.ok h1 = Res.ok h' := heq'
        injection heq2 with he
        subst he
        exact ⟨t', hrep', hio⟩
      | some y =>
        have heq2 : remove_fixup fuel h1 y = Res.ok h' := heq'
        obtain ⟨t'', hrep'', hio''⟩ := ih hrep' (by rw [hio]; exact hnd)
          (hmem y rfl) heq2
        exact ⟨t'', hrep'', hio''.trans hio⟩
    | ub =>
      rw [hstep] at heq'
      cases heq'
    | oof =>
      rw [hstep] at heq'
      cases heq'

end RBT

namespace RBT

/-- Concrete two-node heap (black root 0 with red right child 1) used to
instantiate the rotation theorem. -/
def c6heap : Heap := fun j =>
  if j = 0 then { color := .Black, right := some 1 }
  else if j = 1 then { color := .Red, parent := some 0 }
  else {}

/-- C6: `rotate(node, direction)` in both directions, and the insert- and
remove-fixup loops built on it, keep the heap representing a tree with the
same in-order node sequence as before the structural edit; when the
rotated node is the current root, the pivot (its child opposite the
rotation direction) ends with a null parent and `get_root` finds it as the
new root. -/
theorem C6_rotate_and_fixups_preserve_inorder :
    (∀ (h : Heap) (k : Ctx) (x : Nat) (cx : Color) (A : T) (y : Nat)
        (cy : Color) (B C : T),
      rep h none (plug k (T.nd x cx A (T.nd y cy B C))) →
      (inord (plug k (T.nd x cx A (T.nd y cy B C)))).Nodup →
      ∃ h', rotate h x Dir.Left = .ok h'
        ∧ ∃ t', rep h' none t'
            ∧ inord t' = inord (plug k (T.nd x cx A (T.nd y cy B C)))
            ∧ ((h x).parent = none → (h' y).parent = none
                ∧ get_root 1 h' y = .ok y))
    ∧ (∀ (h : Heap) (k : Ctx) (x : Nat) (cx : Color) (A : T) (y : Nat)
        (cy : Color) (B C : T),
      rep h none (plug k (T.nd x cx (T.nd y cy C B) A)) →
      (inord (plug k (T.nd x cx (T.nd y cy C B) A))).Nodup →
      ∃ h', rotate h x Dir.Right = .ok h'
        ∧ ∃ t', rep h' none t'
            ∧ inord t' = inord (plug k (T.nd x cx (T.nd y cy C B) A))
            ∧ ((h x).parent = none → (h' y).parent = none
                ∧ get_root 1 h' y = .ok y))
    ∧ (∀ (fuel : Nat) (h : Heap) (t : T) (x : Nat) (h' : Heap),
      rep h none t → (inord t).Nodup → x ∈ inord t →
      insert_fixup fuel h x = .ok h' →
      ∃ t', rep h' none t' ∧ inord t' = inord t)
    ∧ (∀ (fuel : Nat) (h : Heap) (t : T) (x : Nat) (h' : Heap),
      rep h none t → (inord t).Nodup → x ∈ inord t →
      remove_fixup fuel h x = .ok h' →
      ∃ t', rep h' none t' ∧ inord t' = inord t) := by
  refine ⟨?_, ?_, ?_, ?_⟩
  · intro h k x cx A y cy B C hrep hnd
    obtain ⟨h', hrot, hrep', hyp⟩ := rotate_left_rep hrep hnd
    refine ⟨h', hrot, plug k (T.nd y cy (T.nd x cx A B) C), hrep',
      inord_plug_congr (by simp [inord]) k, ?_⟩
    intro hpar
    have hxp : (h x).parent = holeParent k := by
      have h2 := hrep
      rw [rep_plug] at h2
      exact h2.2.2.1
    have hhp : holeParent k = none := by
      rw [← hxp]
      exact hpar
    rw [hhp] at hyp
    exact ⟨hyp, by simp [get_root, hyp]⟩
  · intro h k x cx A y cy B C hrep hnd
    obtain ⟨h', hrot, hrep', hyp⟩ := rotate_right_rep hrep hnd
    refine ⟨h', hrot, plug k (T.nd y cy C (T.nd x cx B A)), hrep',
      inord_plug_congr (by simp [inord]) k, ?_⟩
    intro hpar
    have hxp : (h x).parent = holeParent k := by
      have h2 := hrep
      rw [rep_plug] at h2
      exact h2.2.2.1
    have hhp : holeParent k = none := by
      rw [← hxp]
      exact hpar
    rw [hhp] at hyp
    exact ⟨hyp, by simp [get_root, hyp]⟩
  · intro fuel h t x h' hrep hnd hx heq
    exact insert_fixup_inord fuel hrep hnd hx heq
  · intro fuel h t x h' hrep hnd hx heq
    exact remove_fixup_inord fuel hrep hnd hx heq

/-- The rotation statement of C6 applied to the concrete two-node heap:
rotating the root 0 left makes the pivot 1 the new parentless root and
keeps the in-order sequence. -/
theorem C6_rotate_and_fixups_preserve_inorder_witness :
    ∃ h', rotate c6heap 0 Dir.Left = .ok h'
      ∧ ∃ t', rep h' none t'
          ∧ inord t' = inord (plug Ctx.top
              (T.nd 0 Color.Black T.nil (T.nd 1 Color.Red T.nil T.nil)))
          ∧ ((c6heap 0).parent = none → (h' 1).parent = none
              ∧ get_root 1 h' 1 = .ok 1) :=
  C6_rotate_and_fixups_preserve_inorder.1 c6heap Ctx.top 0 Color.Black
    T.nil 1 Color.Red T.nil T.nil
    (by simp [rep, plug, rootOf, c6heap])
    (by simp [plug, inord])

end RBT
